import Mathlib

/-!
# sysinfo: a shallow embedding of `main.go`

The program reads the host (environment variables, pseudo-files, command
outputs, the clock) and prints one labelled line per metric.  The host is an
explicit record `Host`; every probe is a function of it.

* Go strings are modelled as lists of runes (`List Char`), that is, as valid
  UTF-8 text.  The separators the program splits on (`/`, `:`, newline, NUL)
  are single-byte runes, so byte-level and rune-level splitting coincide.
* A slice index that is out of range panics in Go; here every index
  expression is `xs[i]?` and a probe that indexes returns `Option GoString`,
  `none` standing for the panic.
* `float64` values are rationals passed through `roundF64` (round to nearest,
  ties to even, 53 significant bits) after every arithmetic operation.
-/

namespace Sysinfo

/-- A Go string, as its sequence of runes. -/
abbrev GoString := List Char

/-! ## The parts of the Go standard library that the program calls -/

/-- The rune classifier `unicode.IsSpace` (the same set is used by `strings.Fields`,
`strings.TrimSpace` and the scanner of package `fmt`). -/
def isSpace (c : Char) : Bool :=
  let n := c.toNat
  (decide (9 ≤ n) && decide (n ≤ 13)) || n == 32 || n == 0x85 || n == 0xA0 || n == 0x1680
    || (decide (0x2000 ≤ n) && decide (n ≤ 0x200a))
    || n == 0x2028 || n == 0x2029 || n == 0x202f || n == 0x205f || n == 0x3000

/-- The call `strings.Split(s, sep)` for a one-rune separator: the pieces of `s`
between the occurrences of `sep`; always at least one piece. -/
def Split : GoString → Char → List GoString
  | [], _ => [[]]
  | c :: cs, sep =>
    if c = sep then [] :: Split cs sep
    else match Split cs sep with
      | [] => [[c]]
      | p :: ps => (c :: p) :: ps

/-- The call `strings.Fields(s)`: the maximal runs of non-space runes of `s`. -/
def Fields : GoString → List GoString
  | [] => []
  | c :: cs =>
    if isSpace c then Fields cs
    else match cs with
      | [] => [[c]]
      | d :: _ =>
        if isSpace d then [c] :: Fields cs
        else match Fields cs with
          | [] => [[c]]
          | f :: fs => (c :: f) :: fs

/-- The call `strings.TrimSpace(s)`: `s` without its leading and trailing space runes. -/
def TrimSpace (s : GoString) : GoString :=
  ((s.dropWhile isSpace).reverse.dropWhile isSpace).reverse

/-- The call `strings.HasPrefix(s, p)`. -/
def HasPrefix (s p : GoString) : Bool :=
  p.isPrefixOf s

/-- The call `strings.Contains(s, sub)`: `sub` occurs in `s` at some position. -/
def Contains : GoString → GoString → Bool
  | [], sub => sub.isEmpty
  | c :: cs, sub => HasPrefix (c :: cs) sub || Contains cs sub

/-- The call `strings.ReplaceAll(s, old, new)` for one-rune `old` and `new`. -/
def ReplaceAll (s : GoString) (old new : Char) : GoString :=
  s.map (fun c => if c = old then new else c)

/-- The rune mapping `unicode.ToLower`: the ASCII letters are shifted, the other
ASCII runes are fixed, and a rune outside ASCII is looked up in the Unicode case
table `tbl`. -/
def toLowerRune (tbl : Char → Char) (c : Char) : Char :=
  if c.toNat < 128 then
    (if 65 ≤ c.toNat ∧ c.toNat ≤ 90 then Char.ofNat (c.toNat + 32) else c)
  else tbl c

/-- The call `strings.ToLower(s)`. -/
def ToLower (tbl : Char → Char) (s : GoString) : GoString :=
  s.map (toLowerRune tbl)

/-- The decimal digit `d` (for `d < 10`) as a rune. -/
def digitChar (d : Nat) : Char :=
  Char.ofNat (48 + d)

/-- Decimal digits of `n`, most significant first, pushed in front of `acc`;
`fuel` bounds the number of digits. -/
def formatNatAux : Nat → Nat → GoString → GoString
  | 0, _, acc => acc
  | fuel + 1, n, acc =>
    if n < 10 then digitChar n :: acc
    else formatNatAux fuel (n / 10) (digitChar (n % 10) :: acc)

/-- The decimal rendering of a natural number, without leading zeros. -/
def formatNat (n : Nat) : GoString :=
  formatNatAux (n + 1) n []

/-- The verb `%d` of `fmt.Sprintf` on an integer. -/
def formatInt (i : Int) : GoString :=
  if i < 0 then '-' :: formatNat i.natAbs else formatNat i.natAbs

/-- The value of a string of decimal digits, read most significant first. -/
def digitsValue (ds : GoString) : Nat :=
  ds.foldl (fun v c => v * 10 + (c.toNat - 48)) 0

/-- The rune is one of `0` ... `9`. -/
def isDigit (c : Char) : Bool :=
  decide (48 ≤ c.toNat) && decide (c.toNat ≤ 57)

/-- Two's-complement wrap-around of an integer into the range of `int64`. -/
def wrap64 (z : Int) : Int :=
  (z + 2 ^ 63) % 2 ^ 64 - 2 ^ 63

/-- Clamp an integer into the range of `int64`. -/
def sat64 (z : Int) : Int :=
  if z < -(2 ^ 63) then -(2 ^ 63) else if 2 ^ 63 - 1 < z then 2 ^ 63 - 1 else z

/-! ### `float64` -/

/-- Round a rational to the nearest integer, a tie going to the even neighbour. -/
def roundHalfEven (x : ℚ) : Int :=
  let f := ⌊x⌋
  let r := x - f
  if r < 1 / 2 then f else if 1 / 2 < r then f + 1 else if f % 2 = 0 then f else f + 1

/-- The `float64` nearest to the rational `x` (IEEE 754 binary64, round to nearest,
ties to even, subnormals included), as a rational.  No overflow to infinity: the
values the program computes from `int64` quantities stay far below `2 ^ 1024`. -/
def roundF64 (x : ℚ) : ℚ :=
  if x = 0 then 0
  else
    let e := max (Int.log 2 |x|) (-1022)
    let ulp := (2 : ℚ) ^ (e - 52)
    roundHalfEven (x / ulp) * ulp

/-- The conversion `float64(i)` of an integer. -/
def f64OfInt (i : Int) : ℚ :=
  roundF64 i

/-- Float addition. -/
def f64Add (x y : ℚ) : ℚ := roundF64 (x + y)

/-- Float multiplication. -/
def f64Mul (x y : ℚ) : ℚ := roundF64 (x * y)

/-- Float division (by a non-zero divisor). -/
def f64Div (x y : ℚ) : ℚ := roundF64 (x / y)

/-- Truncation of a rational toward zero: the conversion `int(x)` of a float
whose integer part fits the integer type. -/
def truncQ (x : ℚ) : Int :=
  if 0 ≤ x then ⌊x⌋ else ⌈x⌉

/-- Left-pad a digit string with zeros to `width` runes. -/
def padZeros (width : Nat) (ds : GoString) : GoString :=
  List.replicate (width - ds.length) '0' ++ ds

/-- The verb `%.<prec>f` of `fmt.Sprintf` on a finite float: the exact value is
rounded half-to-even to `prec` decimals; a negative value carries a minus sign. -/
def formatFixed (prec : Nat) (x : ℚ) : GoString :=
  let n := (roundHalfEven (|x| * 10 ^ prec)).toNat
  let body := formatNat (n / 10 ^ prec) ++
    (if prec = 0 then [] else '.' :: padZeros prec (formatNat (n % 10 ^ prec)))
  if x < 0 then '-' :: body else body

/-- A `float64` as the scanner can produce it: finite, infinite or not-a-number. -/
inductive F64 where
  | fin (q : ℚ)
  | inf (negative : Bool)
  | nan
  deriving DecidableEq

/-! ### The scanner of package `fmt` -/

/-- Method `SkipSpace` of the scanner behind `Sscanf`: drop space runes; a newline
is an error (`none`). -/
def SkipSpace : GoString → Option GoString
  | [] => some []
  | r :: rest =>
    if r = '\n' then none
    else if isSpace r then SkipSpace rest
    else some (r :: rest)

/-- The part of `doScanf` that consumes the format up to its first verb, for a
format without newline and without `%%`: a literal rune must be the next input
rune; a run of spaces in the format must meet a space (not a newline) or the end
of the input and then swallows the spaces that follow.  Returns the input left
when the verb is reached; `none` when the scan stops with an error before (or the
format has no verb).  `sp` tells that the previous format rune was a space. -/
def scanToVerb : Bool → GoString → GoString → Option GoString
  | _, [], _ => none
  | sp, c :: fmt, inp =>
    if c = '%' then some inp
    else if isSpace c then
      if sp then scanToVerb true fmt inp
      else match inp with
        | [] => scanToVerb true fmt []
        | x :: _ =>
          if isSpace x && x != '\n' then
            scanToVerb true fmt (inp.dropWhile (fun y => isSpace y && y != '\n'))
          else none
    else match inp with
      | [] => none
      | x :: rest => if x = c then scanToVerb false fmt rest else none

/-- The step `s.accept("+-")` of the scanner: a leading sign is taken off the
input; the flag tells a minus sign. -/
def scanSign : GoString → Bool × GoString
  | '+' :: r => (false, r)
  | '-' :: r => (true, r)
  | inp => (false, inp)

/-- Method `scanInt` for the verb `%d` and a 64-bit operand: optional sign, at least
one decimal digit, and the value must fit `int64`; `none` on error. -/
def scanInt (inp : GoString) : Option Int := do
  let inp ← SkipSpace inp
  let ds := (scanSign inp).2.takeWhile isDigit
  if ds = [] then none
  else
    let v : Int := digitsValue ds
    let i := if (scanSign inp).1 then -v else v
    if -(2 ^ 63) ≤ i ∧ i < 2 ^ 63 then some i else none

/-- The call `fmt.Sscanf(input, format, &x)` with `x` an `int64` and `format` made of
literal text, spaces and then `%d`: the value stored in `x`, or `none` when the
scan fails before storing (`x` keeps its old value).  What follows the verb in
the format cannot change `x` any more. -/
def sscanfInt (input format : GoString) : Option Int := do
  let r ← scanToVerb false format input
  let r ← SkipSpace r
  scanInt r

/-- One step `s.accept(ok)` of the scanner: move the next input rune to the token
buffer when it is one of `ok`. -/
def accept (ok : GoString) (st : GoString × GoString) : Bool × (GoString × GoString) :=
  match st.2 with
  | [] => (false, st)
  | c :: rest => if c ∈ ok then (true, (st.1 ++ [c], rest)) else (false, st)

/-- The loop `for s.accept(ok) {}`. -/
def acceptMany (ok : GoString) (buf : GoString) : GoString → GoString × GoString
  | [] => (buf, [])
  | c :: rest => if c ∈ ok then acceptMany ok (buf ++ [c]) rest else (buf, c :: rest)

/-- Method `floatToken` of the scanner: the longest input head that looks like
a floating-point number (it may be empty or ill-formed). -/
def floatToken (inp : GoString) : GoString :=
  let st : GoString × GoString := ([], inp)
  let (a1, st) := accept "nN".toList st
  let (a2, st) := if a1 then accept "aA".toList st else (false, st)
  let (a3, st) := if a2 then accept "nN".toList st else (false, st)
  if a3 then st.1
  else
    let (_, st) := accept "+-".toList st
    let (b1, st) := accept "iI".toList st
    let (b2, st) := if b1 then accept "nN".toList st else (false, st)
    let (b3, st) := if b2 then accept "fF".toList st else (false, st)
    if b3 then st.1
    else
      let (h1, st) := accept "0".toList st
      let (h2, st) := if h1 then accept "xX".toList st else (false, st)
      let digits := if h2 then "0123456789aAbBcCdDeEfF_".toList else "0123456789_".toList
      let exp := if h2 then "pP".toList else "eEpP".toList
      let st := acceptMany digits st.1 st.2
      let (p, st) := accept ".".toList st
      let st := if p then acceptMany digits st.1 st.2 else st
      let (e, st) := accept exp st
      let st :=
        if e then
          let (_, st) := accept "+-".toList st
          acceptMany "0123456789_".toList st.1 st.2
        else st
      st.1

/-- The function `strconv.ParseFloat(tok, 64)` on a plain decimal token (sign,
digits, optional point and fraction, optional `e` exponent; no underscore):
the nearest `float64`; `none` for a syntax error or a value out of range. -/
def parseDecimalFloat (tok : GoString) : Option F64 :=
  let (neg, r) := scanSign tok
  let ip := r.takeWhile isDigit
  let r := r.dropWhile isDigit
  let (fp, r) :=
    match r with
    | '.' :: r => (r.takeWhile isDigit, r.dropWhile isDigit)
    | _ => ([], r)
  if ip = [] ∧ fp = [] then none
  else
    let mant : ℚ := (digitsValue (ip ++ fp) : ℚ) / 10 ^ fp.length
    let exp10 : Option Int :=
      match r with
      | [] => some 0
      | c :: r =>
        if c = 'e' ∨ c = 'E' then
          let (eneg, r) := scanSign r
          if r ≠ [] ∧ r.all isDigit then
            some (if eneg then -(digitsValue r : Int) else (digitsValue r : Int))
          else none
        else none
    match exp10 with
    | none => none
    | some e =>
      let v := roundF64 (mant * (10 : ℚ) ^ e)
      if (2 : ℚ) ^ 1024 ≤ v then none
      else some (F64.fin (if neg then -v else v))

/-- Method `convertFloat` of the scanner on a token of `floatToken`.  The forms
with a hexadecimal mantissa, a binary exponent or digit-separating underscores
are passed to `exotic`, the rest of `strconv.ParseFloat`. -/
def convertFloat (exotic : GoString → Option F64) (tok : GoString) : Option F64 :=
  if tok.any (fun c => c ∈ "_xXpP".toList) then exotic tok
  else
    let low := tok.map (fun c => if 65 ≤ c.toNat ∧ c.toNat ≤ 90 then Char.ofNat (c.toNat + 32) else c)
    if low = "nan".toList then some F64.nan
    else if low = "inf".toList ∨ low = "+inf".toList then some (F64.inf false)
    else if low = "-inf".toList then some (F64.inf true)
    else parseDecimalFloat tok

/-- The call `fmt.Sscanf(input, "%f", &x)` with `x` a `float64`: the value stored
in `x`, or `none` when the scan fails (`x` keeps its old value). -/
def sscanfFloat (exotic : GoString → Option F64) (input : GoString) : Option F64 := do
  let r ← SkipSpace input
  let r ← SkipSpace r
  if r = [] then none
  else convertFloat exotic (floatToken r)

/-! ## The host -/

/-- Everything the program reads from its surroundings. -/
structure Host where
  /-- The constant `runtime.GOOS`. -/
  goos : GoString
  /-- The result of `os.Hostname()`; empty when the lookup fails. -/
  hostname : GoString
  /-- The result of `runtime.NumCPU()`. -/
  numCPU : Int
  /-- The result of `os.Getppid()`. -/
  ppid : Int
  /-- The function `os.Getenv`; an unset variable reads as the empty string. -/
  getenv : GoString → GoString
  /-- The function `os.ReadFile`; `none` when it returns an error. -/
  readFile : GoString → Option GoString
  /-- The call `exec.Command(name, args...).Output()`; `none` when it returns an error. -/
  output : GoString → List GoString → Option GoString
  /-- The Unicode lower-case table for runes outside ASCII. -/
  unicodeLower : Char → Char
  /-- The wall clock read by `time.Now()`: whole seconds since the Unix epoch. -/
  nowSec : Int
  /-- The wall clock read by `time.Now()`: nanoseconds within the second. -/
  nowNsec : Nat
  /-- The result of converting to `int64` a float that is not finite or whose
  integer part does not fit (the Go specification leaves it to the implementation). -/
  floatToInt64 : F64 → Int
  /-- The function `strconv.ParseFloat` on the tokens `convertFloat` does not
  decide itself. -/
  exoticFloat : GoString → Option F64

/-! ## The program -/

/-- ANSI style code `Reset`. -/
def Reset : GoString := Char.ofNat 27 :: "[0m".toList
/-- ANSI style code `Bold`. -/
def Bold : GoString := Char.ofNat 27 :: "[1m".toList
/-- ANSI colour code `Blue`. -/
def Blue : GoString := Char.ofNat 27 :: "[34m".toList
/-- ANSI colour code `Yellow`. -/
def Yellow : GoString := Char.ofNat 27 :: "[33m".toList

/-- The text `printInfo(label, value)` writes to standard output. -/
def printInfo (label value : GoString) : GoString :=
  (Bold ++ Blue) ++ label ++ Reset ++ ": ".toList ++ Yellow ++ value ++ Reset ++ "\n".toList

/-- Source function `getOSInfo`. -/
def getOSInfo (h : Host) : GoString :=
  h.goos ++ " (".toList ++ h.hostname ++ ")".toList

/-- Source function `getKernelVersion`. -/
def getKernelVersion (h : Host) : Option GoString :=
  if h.goos = "linux".toList then
    match h.readFile "/proc/version".toList with
    | some data =>
      let fields := Fields data
      if fields.length ≥ 3 then fields[2]? else some "Unknown".toList
    | none => some "Unknown".toList
  else if h.goos = "darwin".toList then
    match h.output "uname".toList ["-r".toList] with
    | some out => some (TrimSpace out)
    | none => some "Unknown".toList
  else some "Unknown".toList

/-- Source function `getShell`. -/
def getShell (h : Host) : Option GoString :=
  let shell := h.getenv "SHELL".toList
  if shell = [] then some "Unknown".toList
  else
    let parts := Split shell '/'
    parts[parts.length - 1]?

/-- Source function `getDesktopEnvironment`. -/
def getDesktopEnvironment (h : Host) : GoString :=
  let de := h.getenv "XDG_CURRENT_DESKTOP".toList
  if de ≠ [] then de
  else
    let de := h.getenv "DESKTOP_SESSION".toList
    if de ≠ [] then de
    else if h.getenv "GNOME_DESKTOP_SESSION_ID".toList ≠ [] then "GNOME".toList
    else if h.getenv "KDE_FULL_SESSION".toList ≠ [] then "KDE".toList
    else "Unknown".toList

/-- The tail of `getTerminal`, after the parent process was looked at: the
fallback to `TERM`. -/
def getTerminal.fallback (h : Host) : Option GoString :=
  let term := h.getenv "TERM".toList
  if term ≠ [] then some term else some "Unknown".toList

/-- Source function `getTerminal`. -/
def getTerminal (h : Host) : Option GoString :=
  let term := h.getenv "TERM_PROGRAM".toList
  if term ≠ [] then some term
  else if h.goos = "linux".toList then
    let cmdlinePath := "/proc/".toList ++ formatInt h.ppid ++ "/cmdline".toList
    match h.readFile cmdlinePath with
    | some data =>
      let cmdline := ReplaceAll data (Char.ofNat 0) ' '
      let parts := Fields cmdline
      if parts.length > 0 then do
        let termName ← parts[0]?
        if Contains termName "/".toList then
          let pathParts := Split termName '/'
          pathParts[pathParts.length - 1]?
        else pure termName
      else getTerminal.fallback h
    | none => getTerminal.fallback h
  else getTerminal.fallback h

/-- The loop of `getCPUInfo` over the lines of `/proc/cpuinfo`: the value of
`model` when the loop is left. -/
def getCPUInfo.loop : List GoString → Option GoString
  | [] => some "Unknown".toList
  | line :: rest =>
    if HasPrefix line "model name".toList then
      let parts := Split line ':'
      if parts.length > 1 then do
        let p ← parts[1]?
        pure (TrimSpace p)
      else getCPUInfo.loop rest
    else getCPUInfo.loop rest

/-- Source function `getCPUInfo`. -/
def getCPUInfo (h : Host) : Option GoString := do
  let cores := h.numCPU
  let model ←
    if h.goos = "linux".toList then
      match h.readFile "/proc/cpuinfo".toList with
      | some data => getCPUInfo.loop (Split data '\n')
      | none => some "Unknown".toList
    else if h.goos = "darwin".toList then
      match h.output "sysctl".toList ["-n".toList, "machdep.cpu.brand_string".toList] with
      | some out => some (TrimSpace out)
      | none => some "Unknown".toList
    else some "Unknown".toList
  pure (model ++ " (".toList ++ formatInt cores ++ " cores)".toList)

/-- Source function `getDiskInfo`. -/
def getDiskInfo (h : Host) : Option GoString :=
  if h.goos = "linux".toList ∨ h.goos = "darwin".toList then
    match h.output "df".toList ["-h".toList, "/".toList] with
    | some out =>
      let lines := Split out '\n'
      if lines.length > 1 then do
        let l1 ← lines[1]?
        let fields := Fields l1
        if fields.length ≥ 5 then do
          let f2 ← fields[2]?
          let f1 ← fields[1]?
          let f4 ← fields[4]?
          pure (f2 ++ " / ".toList ++ f1 ++ " (".toList ++ f4 ++ ")".toList)
        else pure "Unknown".toList
      else pure "Unknown".toList
    | none => some "Unknown".toList
  else some "Unknown".toList

/-- The linux loop of `getGPUInfo` over the lines of the `lspci` output; the
empty string when the loop runs to its end. -/
def getGPUInfo.linuxLoop (tbl : Char → Char) : List GoString → Option GoString
  | [] => some []
  | line :: rest =>
    let lower := ToLower tbl line
    if Contains lower "vga".toList || Contains lower "3d".toList then
      let parts := Split line ':'
      if parts.length ≥ 3 then do
        let p ← parts[2]?
        pure (TrimSpace p)
      else getGPUInfo.linuxLoop tbl rest
    else getGPUInfo.linuxLoop tbl rest

/-- The darwin loop of `getGPUInfo` over the lines of the `system_profiler` output. -/
def getGPUInfo.darwinLoop : List GoString → Option GoString
  | [] => some []
  | line :: rest =>
    if Contains line "Chipset Model:".toList then
      let parts := Split line ':'
      if parts.length > 1 then do
        let p ← parts[1]?
        pure (TrimSpace p)
      else getGPUInfo.darwinLoop rest
    else getGPUInfo.darwinLoop rest

/-- Source function `getGPUInfo`. -/
def getGPUInfo (h : Host) : Option GoString :=
  if h.goos = "linux".toList then
    match h.output "lspci".toList [] with
    | some out => getGPUInfo.linuxLoop h.unicodeLower (Split out '\n')
    | none => some []
  else if h.goos = "darwin".toList then
    match h.output "system_profiler".toList ["SPDisplaysDataType".toList] with
    | some out => getGPUInfo.darwinLoop (Split out '\n')
    | none => some []
  else some []

/-- Method `Duration.Hours`: the duration (in nanoseconds) as a float number of hours. -/
def Duration.Hours (d : Int) : ℚ :=
  let hour := Int.tdiv d 3600000000000
  let nsec := Int.tmod d 3600000000000
  f64Add (f64OfInt hour) (f64Div (f64OfInt nsec) 3600000000000)

/-- Method `Duration.Minutes`: the duration (in nanoseconds) as a float number of minutes. -/
def Duration.Minutes (d : Int) : ℚ :=
  let min := Int.tdiv d 60000000000
  let nsec := Int.tmod d 60000000000
  f64Add (f64OfInt min) (f64Div (f64OfInt nsec) 60000000000)

/-- The three integers `days`, `hours`, `minutes` computed at the head of
`formatDuration`. -/
def formatDuration.parts (d : Int) : Int × Int × Int :=
  let days := truncQ (f64Div (Duration.Hours d) 24)
  let hours := Int.tmod (truncQ (Duration.Hours d)) 24
  let minutes := Int.tmod (truncQ (Duration.Minutes d)) 60
  (days, hours, minutes)

/-- Source function `formatDuration`; the duration is a number of nanoseconds. -/
def formatDuration (d : Int) : GoString :=
  let (days, hours, minutes) := formatDuration.parts d
  if days > 0 then
    formatInt days ++ "d ".toList ++ formatInt hours ++ "h ".toList ++ formatInt minutes ++ "m".toList
  else if hours > 0 then
    formatInt hours ++ "h ".toList ++ formatInt minutes ++ "m".toList
  else formatInt minutes ++ "m".toList

/-- The conversion `time.Duration(seconds)` of a float to `int64`. -/
def durationOfFloat (h : Host) (x : F64) : Int :=
  match x with
  | F64.fin q =>
    if -(2 ^ 63) ≤ truncQ q ∧ truncQ q < 2 ^ 63 then truncQ q else wrap64 (h.floatToInt64 x)
  | _ => wrap64 (h.floatToInt64 x)

/-- The call `time.Since(time.Unix(bootTime, 0))`: the time elapsed from the
instant `bootTime` seconds after the epoch to now, clamped to the range of a
duration.  The instant is kept as a 64-bit count of seconds from year 1. -/
def sinceUnix (h : Host) (bootTime : Int) : Int :=
  let unixToInternal : Int := 62135596800
  let bootInternal := wrap64 (bootTime + unixToInternal)
  sat64 ((h.nowSec + unixToInternal - bootInternal) * 1000000000 + h.nowNsec)

/-- Source function `getUptime`. -/
def getUptime (h : Host) : Option GoString :=
  if h.goos = "linux".toList then
    match h.readFile "/proc/uptime".toList with
    | some data =>
      let fields := Fields data
      if fields.length > 0 then do
        let f0 ← fields[0]?
        let seconds := (sscanfFloat h.exoticFloat f0).getD (F64.fin 0)
        pure (formatDuration (wrap64 (durationOfFloat h seconds * 1000000000)))
      else some "Unknown".toList
    | none => some "Unknown".toList
  else if h.goos = "darwin".toList then
    match h.output "sysctl".toList ["-n".toList, "kern.boottime".toList] with
    | some out =>
      let bootTime := (sscanfInt out "\x7b sec = %d".toList).getD 0
      let uptime := sinceUnix h bootTime
      some (formatDuration uptime)
    | none => some "Unknown".toList
  else some "Unknown".toList

/-- The linux loop of `getMemoryInfo` over the lines of `/proc/meminfo`, started
with the current values of `total` and `available`; returns their final values. -/
def getMemoryInfo.loop : List GoString → Int × Int → Int × Int
  | [], st => st
  | line :: rest, (total, available) =>
    if HasPrefix line "MemTotal:".toList then
      getMemoryInfo.loop rest ((sscanfInt line "MemTotal: %d kB".toList).getD total, available)
    else if HasPrefix line "MemAvailable:".toList then
      getMemoryInfo.loop rest (total, (sscanfInt line "MemAvailable: %d kB".toList).getD available)
    else getMemoryInfo.loop rest (total, available)

/-- Source function `getMemoryInfo`. -/
def getMemoryInfo (h : Host) : GoString :=
  if h.goos = "linux".toList then
    match h.readFile "/proc/meminfo".toList with
    | some data =>
      let (total, available) := getMemoryInfo.loop (Split data '\n') (0, 0)
      if total > 0 then
        let used := wrap64 (total - available)
        let totalGB := f64Div (f64Div (f64OfInt total) 1024) 1024
        let usedGB := f64Div (f64Div (f64OfInt used) 1024) 1024
        let percent := f64Div (f64Mul (f64OfInt used) 100) (f64OfInt total)
        formatFixed 1 usedGB ++ "G / ".toList ++ formatFixed 1 totalGB ++ "G (".toList
          ++ formatFixed 0 percent ++ "%)".toList
      else "Unknown".toList
    | none => "Unknown".toList
  else if h.goos = "darwin".toList then
    match h.output "sysctl".toList ["-n".toList, "hw.memsize".toList] with
    | some out =>
      let total := (sscanfInt out "%d".toList).getD 0
      let totalGB := f64Div (f64Div (f64Div (f64OfInt total) 1024) 1024) 1024
      formatFixed 1 totalGB ++ "G".toList
    | none => "Unknown".toList
  else "Unknown".toList

/-- The text `displayInfo` writes once the ten probes have returned the given
strings: nine `printInfo` calls, and a tenth for the GPU when its string is not
empty. -/
def displayInfo.write (os kernel uptime de terminal shell cpu memory disk gpu : GoString) :
    GoString :=
  let out := printInfo "OS".toList os
  let out := out ++ printInfo "Kernel".toList kernel
  let out := out ++ printInfo "Uptime".toList uptime
  let out := out ++ printInfo "DE".toList de
  let out := out ++ printInfo "Terminal".toList terminal
  let out := out ++ printInfo "Shell".toList shell
  let out := out ++ printInfo "CPU".toList cpu
  let out := out ++ printInfo "Memory".toList memory
  let out := out ++ printInfo "Disk".toList disk
  if gpu ≠ [] then out ++ printInfo "GPU".toList gpu else out

/-- Source function `displayInfo`: the text written to standard output. -/
def displayInfo (h : Host) : Option GoString := do
  let os := getOSInfo h
  let kernel ← getKernelVersion h
  let uptime ← getUptime h
  let de := getDesktopEnvironment h
  let terminal ← getTerminal h
  let shell ← getShell h
  let cpu ← getCPUInfo h
  let memory := getMemoryInfo h
  let disk ← getDiskInfo h
  let gpu ← getGPUInfo h
  pure (displayInfo.write os kernel uptime de terminal shell cpu memory disk gpu)

/-! ## Definitions that follow the words of the specification -/

/-- The final component of `s` split on `sep`: the suffix of `s` after its last
`sep`, or `s` itself when it has none. -/
def Spec.finalComponent (sep : Char) (s : GoString) : GoString :=
  (s.reverse.takeWhile (fun c => c != sep)).reverse

/-- A rune that ends an argument of a command line: the NUL byte or white space. -/
def Spec.isArgSeparator (c : Char) : Bool :=
  c == Char.ofNat 0 || isSpace c

/-- The first token of a command line whose NUL bytes count as spaces: the
leading separators are skipped and the token runs up to the next separator;
`none` when nothing but separators is there. -/
def Spec.firstToken (data : GoString) : Option GoString :=
  let tok := (data.dropWhile Spec.isArgSeparator).takeWhile (fun c => !Spec.isArgSeparator c)
  if tok = [] then none else some tok

/-- The first token of the parent's command line: on linux only, when the cmdline
file of the parent process is readable and has a token. -/
def Spec.parentToken (h : Host) : Option GoString :=
  if h.goos = "linux".toList then
    (h.readFile ("/proc/".toList ++ formatInt h.ppid ++ "/cmdline".toList)).bind
      Spec.firstToken
  else none

/-- The priority cascade of the terminal probe. -/
def Spec.terminal (h : Host) : GoString :=
  if h.getenv "TERM_PROGRAM".toList ≠ [] then h.getenv "TERM_PROGRAM".toList
  else
    match Spec.parentToken h with
    | some tok => Spec.finalComponent '/' tok
    | none =>
      if h.getenv "TERM".toList ≠ [] then h.getenv "TERM".toList else "Unknown".toList

/-- A line of `lspci` output names a GPU: it contains `vga` or `3d`, letter case
ignored. -/
def Spec.namesGPU (tbl : Char → Char) (line : GoString) : Bool :=
  Contains (ToLower tbl line) "vga".toList || Contains (ToLower tbl line) "3d".toList

/-- A report line without its newline: the styled label, a colon and the styled value. -/
def Spec.reportLine (label value : GoString) : GoString :=
  (Bold ++ Blue) ++ label ++ Reset ++ ": ".toList ++ Yellow ++ value ++ Reset

/-- The text for a duration of `s` whole seconds, in the words of the
specification: with `H` the whole hours and `M` the whole minutes of the
duration, days, hours mod 24 and minutes mod 60 when there is a day, else hours
and minutes mod 60 when there is an hour, else the minutes. -/
def Spec.durationText (s : Nat) : GoString :=
  let H := s / 3600
  let M := s / 60
  if H / 24 > 0 then
    formatNat (H / 24) ++ "d ".toList ++ formatNat (H % 24) ++ "h ".toList
      ++ formatNat (M % 60) ++ "m".toList
  else if H > 0 then formatNat H ++ "h ".toList ++ formatNat (M % 60) ++ "m".toList
  else formatNat M ++ "m".toList

/-- A line of `/proc/meminfo`: the key, a colon, `k` spaces, the value in decimal
and the unit ` kB`. -/
def Spec.meminfoLine (key : GoString) (k : Nat) (v : Nat) : GoString :=
  key ++ ":".toList ++ List.replicate k ' ' ++ formatNat v ++ " kB".toList

/-- The memory text of the specification for `t` kB in total and `a` kB
available: used and total in units of `1024 ^ 2` kB with one decimal, and the
used share in percent with no decimal, all computed exactly. -/
def Spec.memoryText (t a : Nat) : GoString :=
  formatFixed 1 (((t : ℚ) - a) / 1024 ^ 2) ++ "G / ".toList
    ++ formatFixed 1 ((t : ℚ) / 1024 ^ 2) ++ "G (".toList
    ++ formatFixed 0 (((t : ℚ) - a) * 100 / t) ++ "%)".toList

/-! ## Concrete hosts for the examples -/

/-- A host on platform `goos` where every variable is unset and every read and
command fails. -/
def bareHost (goos : GoString) : Host where
  goos := goos
  hostname := "box".toList
  numCPU := 4
  ppid := 1
  getenv := fun _ => []
  readFile := fun _ => none
  output := fun _ _ => none
  unicodeLower := fun c => c
  nowSec := 1700000000
  nowNsec := 0
  floatToInt64 := fun _ => -(2 ^ 63)
  exoticFloat := fun _ => none

/-- The host `h` with the environment variable `name` set to `value`. -/
def Host.setenv (h : Host) (name value : GoString) : Host :=
  { h with getenv := fun k => if k = name then value else h.getenv k }

/-- The host `h` where reading the file `path` succeeds with `content`. -/
def Host.withFile (h : Host) (path content : GoString) : Host :=
  { h with readFile := fun p => if p = path then some content else h.readFile p }

/-- The host `h` where the command `name args` succeeds with output `out`. -/
def Host.withOutput (h : Host) (name : GoString) (args : List GoString) (out : GoString) : Host :=
  { h with output := fun n a => if n = name ∧ a = args then some out else h.output n a }

/-! ## Library lemmas -/

theorem Split_ne_nil (s : GoString) (sep : Char) : Split s sep ≠ [] := by
  cases s with
  | nil => simp [Split]
  | cons c cs =>
    unfold Split
    split
    · simp
    · split <;> simp

theorem Split_of_not_mem (sep : Char) : ∀ s : GoString, sep ∉ s → Split s sep = [s]
  | [], _ => by simp [Split]
  | c :: cs, hs => by
    have hc : c ≠ sep := fun e => hs (by simp [e])
    have hcs : sep ∉ cs := fun e => hs (by simp [e])
    rw [Split, if_neg hc, Split_of_not_mem sep cs hcs]

theorem Split_length_of_mem (sep : Char) : ∀ s : GoString, sep ∈ s → 2 ≤ (Split s sep).length
  | [], hs => by simp at hs
  | c :: cs, hs => by
    by_cases hc : c = sep
    · rw [Split, if_pos hc]
      have := List.length_pos.mpr (Split_ne_nil cs sep)
      simp only [List.length_cons]
      omega
    · have hcs : sep ∈ cs := by
        rcases List.mem_cons.mp hs with e | e
        · exact absurd e.symm hc
        · exact e
      have ih := Split_length_of_mem sep cs hcs
      rw [Split, if_neg hc]
      cases hsp : Split cs sep with
      | nil => exact absurd hsp (Split_ne_nil cs sep)
      | cons p ps =>
        rw [hsp] at ih
        simpa using ih

theorem takeWhile_append_singleton (p : Char → Bool) (a : Char) :
    ∀ l : GoString, (l ++ [a]).takeWhile p =
      if ∀ x ∈ l, p x = true then l ++ (if p a then [a] else []) else l.takeWhile p
  | [] => by by_cases h : p a <;> simp [List.takeWhile, h]
  | c :: cs => by
    have ih := takeWhile_append_singleton p a cs
    by_cases hc : p c = true
    · simp only [List.cons_append, List.takeWhile_cons, hc, if_true, ih]
      by_cases hall : ∀ x ∈ cs, p x = true
      · rw [if_pos hall]
        have hall2 : ∀ x ∈ c :: cs, p x = true := by
          intro x hx
          rcases List.mem_cons.mp hx with e | e
          · exact e ▸ hc
          · exact hall x e
        rw [if_pos hall2]
      · rw [if_neg hall]
        have hall2 : ¬ ∀ x ∈ c :: cs, p x = true := by
          intro hh
          exact hall (fun x hx => hh x (List.mem_cons_of_mem c hx))
        rw [if_neg hall2]
    · have hall2 : ¬ ∀ x ∈ c :: cs, p x = true := by
        intro hh
        exact hc (hh c (List.mem_cons_self c cs))
      rw [if_neg hall2]
      simp [List.takeWhile_cons, hc]

theorem finalComponent_cons (sep c : Char) (cs : GoString) :
    Spec.finalComponent sep (c :: cs) =
      if sep ∈ cs then Spec.finalComponent sep cs else if c = sep then cs else c :: cs := by
  unfold Spec.finalComponent
  rw [List.reverse_cons, takeWhile_append_singleton]
  by_cases hmem : sep ∈ cs
  · have : ¬ ∀ x ∈ cs.reverse, (x != sep) = true := by
      intro hall
      have := hall sep (List.mem_reverse.mpr hmem)
      simp at this
    simp [this, hmem]
  · have hall : ∀ x ∈ cs.reverse, (x != sep) = true := by
      intro x hx
      have hx' : x ∈ cs := List.mem_reverse.mp hx
      simp only [bne_iff_ne, ne_eq]
      intro e
      exact hmem (e ▸ hx')
    rw [if_pos hall, if_neg hmem]
    by_cases hc : c = sep
    · simp [hc]
    · simp [hc]

theorem finalComponent_of_not_mem (sep : Char) (s : GoString) (hs : sep ∉ s) :
    Spec.finalComponent sep s = s := by
  unfold Spec.finalComponent
  have hall : ∀ x ∈ s.reverse, (x != sep) = true := by
    intro x hx
    have hx' : x ∈ s := List.mem_reverse.mp hx
    simp only [bne_iff_ne, ne_eq]
    intro e
    exact hs (e ▸ hx')
  rw [List.takeWhile_eq_self_iff.mpr hall, List.reverse_reverse]

theorem getLast?_cons_of_ne_nil {α : Type} {a : α} :
    ∀ {l : List α}, l ≠ [] → (a :: l).getLast? = l.getLast?
  | [], hl => absurd rfl hl
  | _ :: _, _ => by simp [List.getLast?_cons_cons]

theorem Split_getLast (sep : Char) :
    ∀ s : GoString, (Split s sep).getLast? = some (Spec.finalComponent sep s)
  | [] => by simp [Split, Spec.finalComponent]
  | c :: cs => by
    have ih := Split_getLast sep cs
    rw [finalComponent_cons]
    by_cases hc : c = sep
    · rw [Split, if_pos hc, getLast?_cons_of_ne_nil (Split_ne_nil cs sep), ih]
      by_cases hmem : sep ∈ cs
      · simp [hmem]
      · simp [hmem, hc, finalComponent_of_not_mem sep cs hmem]
    · rw [Split, if_neg hc]
      by_cases hmem : sep ∈ cs
      · have hlen := Split_length_of_mem sep cs hmem
        cases hsp : Split cs sep with
        | nil => exact absurd hsp (Split_ne_nil cs sep)
        | cons p ps =>
          rw [hsp] at ih hlen
          have hps : ps ≠ [] := by
            intro e
            rw [e] at hlen
            simp at hlen
          simp only [if_pos hmem]
          rw [getLast?_cons_of_ne_nil hps]
          rw [getLast?_cons_of_ne_nil hps] at ih
          exact ih
      · rw [Split_of_not_mem sep cs hmem]
        simp [hmem, hc]

theorem Split_last_index (sep : Char) (s : GoString) :
    (Split s sep)[(Split s sep).length - 1]? = some (Spec.finalComponent sep s) := by
  rw [← List.getLast?_eq_getElem?]
  exact Split_getLast sep s

theorem finalComponent_spec (sep : Char) :
    ∀ s : GoString, sep ∉ Spec.finalComponent sep s ∧
      ((sep ∉ s ∧ Spec.finalComponent sep s = s) ∨
        ∃ p, s = p ++ sep :: Spec.finalComponent sep s)
  | [] => by simp [Spec.finalComponent]
  | c :: cs => by
    have ih := finalComponent_spec sep cs
    rw [finalComponent_cons]
    by_cases hmem : sep ∈ cs
    · simp only [if_pos hmem]
      refine ⟨ih.1, Or.inr ?_⟩
      rcases ih.2 with ⟨hn, _⟩ | ⟨p, hp⟩
      · exact absurd hmem hn
      · exact ⟨c :: p, by rw [List.cons_append, ← hp]⟩
    · simp only [if_neg hmem]
      by_cases hc : c = sep
      · simp only [if_pos hc]
        exact ⟨hmem, Or.inr ⟨[], by simp [hc]⟩⟩
      · simp only [if_neg hc]
        have hn : sep ∉ c :: cs := by
          intro hh
          rcases List.mem_cons.mp hh with e | e
          · exact hc e.symm
          · exact hmem e
        exact ⟨hn, Or.inl ⟨hn, trivial⟩⟩

theorem Contains_singleton (c : Char) : ∀ s : GoString, Contains s [c] = decide (c ∈ s)
  | [] => by simp [Contains]
  | x :: xs => by
    have ih := Contains_singleton c xs
    rw [Contains, ih]
    by_cases hx : c = x
    · simp [HasPrefix, List.isPrefixOf, hx]
    · have hx' : ¬ x = c := fun e => hx e.symm
      simp [HasPrefix, List.isPrefixOf, hx, hx']

theorem Fields_ne_nil_of_mem : ∀ (s : GoString) (f : GoString), f ∈ Fields s → f ≠ []
  | [], f, hf => by simp [Fields] at hf
  | c :: cs, f, hf => by
    have ih := Fields_ne_nil_of_mem cs
    unfold Fields at hf
    split at hf
    · exact ih f hf
    · split at hf
      · simp at hf
        simp [hf]
      · split at hf
        · rcases List.mem_cons.mp hf with e | e
          · simp [e]
          · exact ih f e
        · split at hf
          · simp at hf
            simp [hf]
          · rcases List.mem_cons.mp hf with e | e
            · simp [e]
            · rename_i f0 fs hsp
              exact ih f (by rw [hsp]; exact List.mem_cons_of_mem _ e)

theorem TrimSpace_eq_nil_iff (s : GoString) :
    TrimSpace s = [] ↔ ∀ c ∈ s, isSpace c = true := by
  unfold TrimSpace
  rw [List.reverse_eq_nil_iff, List.dropWhile_eq_nil_iff]
  constructor
  · intro hall
    have hd : ∀ c ∈ s.dropWhile isSpace, isSpace c = true := fun c hc =>
      hall c (List.mem_reverse.mpr hc)
    cases hdw : s.dropWhile isSpace with
    | nil => exact List.dropWhile_eq_nil_iff.mp hdw
    | cons x t =>
      exfalso
      have hx : isSpace x = true := hd x (by rw [hdw]; exact List.mem_cons_self x t)
      have hne : s.dropWhile isSpace ≠ [] := by rw [hdw]; simp
      have hh := List.head_dropWhile_not isSpace s hne
      simp only [hdw, List.head_cons] at hh
      rw [hx] at hh
      exact absurd hh (by decide)
  · intro hall c hc
    have : s.dropWhile isSpace = [] := List.dropWhile_eq_nil_iff.mpr hall
    rw [this] at hc
    simp at hc

/-! ## The shell probe -/

/-- C5: for every value of `SHELL`, `getShell` returns `Unknown` when it is empty
and otherwise the final component of the value split on `/`, which is the suffix
after the last `/` (it has no `/` and the value is some head, a `/` and it), or the
value itself when it has no `/`; `/usr/bin/zsh` gives `zsh`. -/
theorem getShell_spec (h : Host) :
    getShell h = some (if h.getenv "SHELL".toList = [] then "Unknown".toList
      else Spec.finalComponent '/' (h.getenv "SHELL".toList))
    ∧ ('/' ∉ Spec.finalComponent '/' (h.getenv "SHELL".toList)
      ∧ (('/' ∉ h.getenv "SHELL".toList
          ∧ Spec.finalComponent '/' (h.getenv "SHELL".toList) = h.getenv "SHELL".toList)
        ∨ ∃ p, h.getenv "SHELL".toList
            = p ++ '/' :: Spec.finalComponent '/' (h.getenv "SHELL".toList)))
    ∧ getShell ((bareHost "linux".toList).setenv "SHELL".toList "/usr/bin/zsh".toList)
        = some "zsh".toList
    ∧ getShell ((bareHost "linux".toList).setenv "SHELL".toList []) = some "Unknown".toList := by
  refine ⟨?_, finalComponent_spec '/' _, by decide, by decide⟩
  unfold getShell
  by_cases hs : h.getenv "SHELL".toList = []
  · simp only [hs, if_true]
  · simp only [hs, if_false]
    exact Split_last_index '/' _

/-! ## The terminal probe -/

theorem Fields_dropWhile : ∀ s : GoString, Fields (s.dropWhile isSpace) = Fields s
  | [] => rfl
  | c :: cs => by
    by_cases hc : isSpace c = true
    · have e : Fields (c :: cs) = Fields cs := by
        conv_lhs => unfold Fields
        rw [if_pos hc]
      rw [List.dropWhile_cons, if_pos hc, Fields_dropWhile cs, e]
    · rw [List.dropWhile_cons, if_neg hc]

theorem Fields_head_of_not_space : ∀ (cs : GoString) (c : Char), isSpace c = false →
    (Fields (c :: cs)).head? = some ((c :: cs).takeWhile (fun x => !isSpace x))
  | [], c, hc => by
    simp [Fields, hc, List.takeWhile]
  | d :: ds, c, hc => by
    by_cases hd : isSpace d = true
    · unfold Fields
      simp [hc, hd, List.takeWhile]
    · have hd' : isSpace d = false := by simpa using hd
      have ih := Fields_head_of_not_space ds d hd'
      conv_lhs => unfold Fields
      simp only [hc, Bool.false_eq_true, if_false, hd']
      cases hf : Fields (d :: ds) with
      | nil =>
        rw [hf] at ih
        simp at ih
      | cons f fs =>
        rw [hf] at ih
        simp only [List.head?_cons, Option.some.injEq] at ih
        simp only [List.head?_cons]
        rw [ih]
        simp [List.takeWhile, hc]

/-- The first field of a text: skip the leading space runes, then run up to the
next space rune. -/
theorem Fields_head (s : GoString) :
    (Fields s).head? =
      if (s.dropWhile isSpace).takeWhile (fun x => !isSpace x) = [] then none
      else some ((s.dropWhile isSpace).takeWhile (fun x => !isSpace x)) := by
  rw [← Fields_dropWhile s]
  cases hd : s.dropWhile isSpace with
  | nil => simp [Fields]
  | cons c cs =>
    have hne : s.dropWhile isSpace ≠ [] := by rw [hd]; simp
    have hc := List.head_dropWhile_not isSpace s hne
    simp only [hd, List.head_cons] at hc
    have hc' : isSpace c = false := by simpa using hc
    rw [Fields_head_of_not_space cs c hc']
    have : (c :: cs).takeWhile (fun x => !isSpace x) ≠ [] := by
      simp [List.takeWhile, hc']
    rw [if_neg this]

theorem isSpace_replaced (c : Char) :
    isSpace (if c = Char.ofNat 0 then ' ' else c) = Spec.isArgSeparator c := by
  unfold Spec.isArgSeparator
  by_cases hc : c = Char.ofNat 0
  · rw [if_pos hc, hc]
    decide
  · rw [if_neg hc]
    simp [hc]

theorem dropWhile_ReplaceAll : ∀ data : GoString,
    (ReplaceAll data (Char.ofNat 0) ' ').dropWhile isSpace
      = ReplaceAll (data.dropWhile Spec.isArgSeparator) (Char.ofNat 0) ' '
  | [] => rfl
  | c :: cs => by
    have ih := dropWhile_ReplaceAll cs
    unfold ReplaceAll at ih ⊢
    rw [List.map_cons, List.dropWhile_cons, List.dropWhile_cons, isSpace_replaced]
    by_cases hc : Spec.isArgSeparator c = true
    · rw [if_pos hc, if_pos hc, ih]
    · rw [if_neg hc, if_neg hc, List.map_cons]

theorem takeWhile_ReplaceAll : ∀ data : GoString,
    (ReplaceAll data (Char.ofNat 0) ' ').takeWhile (fun x => !isSpace x)
      = data.takeWhile (fun c => !Spec.isArgSeparator c)
  | [] => rfl
  | c :: cs => by
    have ih := takeWhile_ReplaceAll cs
    unfold ReplaceAll at ih ⊢
    rw [List.map_cons, List.takeWhile_cons, List.takeWhile_cons, isSpace_replaced]
    by_cases hc : Spec.isArgSeparator c = true
    · simp [hc]
    · have hc' : Spec.isArgSeparator c = false := by simpa using hc
      have hne : c ≠ Char.ofNat 0 := by
        intro e
        rw [e] at hc'
        exact absurd hc' (by decide)
      simp only [hc', Bool.not_false, if_true, ih, if_neg hne]

/-- The first field of the command line with its NUL bytes replaced by spaces, as
the code computes it, is the first token of the specification. -/
theorem Fields_ReplaceAll_head (data : GoString) :
    (Fields (ReplaceAll data (Char.ofNat 0) ' ')).head? = Spec.firstToken data := by
  rw [Fields_head, dropWhile_ReplaceAll, takeWhile_ReplaceAll]
  rfl

/-- C7: `getTerminal` is the priority cascade `Spec.terminal`: `TERM_PROGRAM` when
it is not empty, whatever the rest of the host is; otherwise, on linux with a
readable parent cmdline that has a token once its NUL bytes count as spaces, the
final `/`-component of its first token; otherwise `TERM` when not empty;
otherwise `Unknown`.  One host for each step: `TERM_PROGRAM=iTerm.app` wins over
the parent and `TERM`; the parent `/usr/bin/kitty`, NUL, `--single-instance`, NUL
gives `kitty` on linux and is ignored on darwin; an unreadable or empty cmdline
falls to `TERM`; with nothing set the result is `Unknown`. -/
theorem getTerminal_cascade (h : Host) :
    getTerminal h = some (Spec.terminal h)
    ∧ (h.getenv "TERM_PROGRAM".toList ≠ [] → getTerminal h = some (h.getenv "TERM_PROGRAM".toList))
    ∧ getTerminal ((((bareHost "linux".toList).setenv "TERM".toList "xterm".toList).withFile
          "/proc/1/cmdline".toList "/usr/bin/kitty\x00--single-instance\x00".toList).setenv
          "TERM_PROGRAM".toList "iTerm.app".toList) = some "iTerm.app".toList
    ∧ getTerminal (((bareHost "linux".toList).setenv "TERM".toList "xterm".toList).withFile
          "/proc/1/cmdline".toList "/usr/bin/kitty\x00--single-instance\x00".toList)
        = some "kitty".toList
    ∧ getTerminal (((bareHost "linux".toList).setenv "TERM".toList "xterm".toList).withFile
          "/proc/1/cmdline".toList "-bash\x00".toList) = some "-bash".toList
    ∧ getTerminal (((bareHost "darwin".toList).setenv "TERM".toList "xterm".toList).withFile
          "/proc/1/cmdline".toList "/usr/bin/kitty\x00--single-instance\x00".toList)
        = some "xterm".toList
    ∧ getTerminal (((bareHost "linux".toList).setenv "TERM".toList "xterm".toList).withFile
          "/proc/1/cmdline".toList "\x00 \x00".toList) = some "xterm".toList
    ∧ getTerminal ((bareHost "linux".toList).setenv "TERM".toList "xterm".toList)
        = some "xterm".toList
    ∧ getTerminal (bareHost "linux".toList) = some "Unknown".toList := by
  have key : getTerminal h = some (Spec.terminal h) := by
    unfold getTerminal Spec.terminal Spec.parentToken getTerminal.fallback
    by_cases ht : h.getenv "TERM_PROGRAM".toList = []
    · simp only [ht, ne_eq, not_true_eq_false, if_false]
      by_cases hl : h.goos = "linux".toList
      · simp only [hl, if_true]
        cases hr : h.readFile ("/proc/".toList ++ formatInt h.ppid ++ "/cmdline".toList) with
        | none =>
          simp only [Option.bind_eq_bind, Option.none_bind]
          split_ifs <;> rfl
        | some data =>
          simp only [Option.bind_eq_bind, Option.some_bind]
          rw [← Fields_ReplaceAll_head]
          cases hf : Fields (ReplaceAll data (Char.ofNat 0) ' ') with
          | nil =>
            simp only [List.length_nil, gt_iff_lt, lt_self_iff_false, if_false, List.head?_nil]
            split_ifs <;> rfl
          | cons tok rest =>
            simp only [List.length_cons, gt_iff_lt, Nat.zero_lt_succ, if_true, List.head?_cons,
              List.getElem?_cons_zero, Option.bind_eq_bind, Option.some_bind]
            have hc : Contains tok "/".toList = decide ('/' ∈ tok) := Contains_singleton '/' tok
            rw [hc]
            by_cases hm : '/' ∈ tok
            · simp only [hm, decide_True, if_true]
              exact Split_last_index '/' tok
            · simp only [hm, decide_False, if_false, Bool.false_eq_true]
              rw [finalComponent_of_not_mem '/' tok hm]
              rfl
      · simp only [hl, if_false]
        split_ifs <;> rfl
    · simp only [ht, ne_eq, not_false_eq_true, if_true]
  refine ⟨key, ?_, by decide, by decide, by decide, by decide, by decide, by decide, by decide⟩
  intro ht
  rw [key]
  unfold Spec.terminal
  rw [if_pos ht]

/-- Witness for C7: a host whose `TERM_PROGRAM` is not empty. -/
theorem getTerminal_cascade_witness :
    ((bareHost "darwin".toList).setenv "TERM_PROGRAM".toList "iTerm.app".toList).getenv
        "TERM_PROGRAM".toList ≠ []
    ∧ getTerminal ((bareHost "darwin".toList).setenv "TERM_PROGRAM".toList "iTerm.app".toList)
        = some (((bareHost "darwin".toList).setenv "TERM_PROGRAM".toList
            "iTerm.app".toList).getenv "TERM_PROGRAM".toList) :=
  ⟨by decide,
    (getTerminal_cascade
      ((bareHost "darwin".toList).setenv "TERM_PROGRAM".toList "iTerm.app".toList)).2.1
      (by decide)⟩

/-! ## No probe panics -/

theorem getElem?_isSome_of_lt {α : Type} (l : List α) (i : Nat) (hi : i < l.length) :
    (l[i]?).isSome = true := by
  rw [List.getElem?_eq_getElem hi]
  rfl

theorem getKernelVersion_isSome (h : Host) : (getKernelVersion h).isSome = true := by
  unfold getKernelVersion
  split_ifs with h1 h2
  · split
    · simp only []
      split_ifs with h3
      · exact getElem?_isSome_of_lt _ _ (by omega)
      · rfl
    · rfl
  · split <;> rfl
  · rfl

theorem getShell_isSome (h : Host) : (getShell h).isSome = true := by
  unfold getShell
  simp only []
  split_ifs with h1
  · rfl
  · rw [Split_last_index]
    rfl

theorem getTerminal_fallback_isSome (h : Host) : (getTerminal.fallback h).isSome = true := by
  unfold getTerminal.fallback
  simp only []
  split_ifs <;> rfl

theorem getTerminal_isSome (h : Host) : (getTerminal h).isSome = true := by
  unfold getTerminal
  simp only []
  split_ifs with h1 h2
  · rfl
  · split
    · split_ifs with h3
      · rename_i data _
        have h0 : (Fields (ReplaceAll data (Char.ofNat 0) ' '))[0]? =
            some ((Fields (ReplaceAll data (Char.ofNat 0) ' '))[0]) :=
          List.getElem?_eq_getElem h3
        simp only [h0, Option.bind_eq_bind, Option.some_bind]
        split_ifs with h4
        · rw [Split_last_index]
          rfl
        · rfl
      · exact getTerminal_fallback_isSome h
    · exact getTerminal_fallback_isSome h
  · exact getTerminal_fallback_isSome h

theorem getCPUInfo_loop_isSome : ∀ lines : List GoString, (getCPUInfo.loop lines).isSome = true
  | [] => rfl
  | line :: rest => by
    have ih := getCPUInfo_loop_isSome rest
    unfold getCPUInfo.loop
    simp only []
    split_ifs with h1 h2
    · simp only [List.getElem?_eq_getElem h2, Option.bind_eq_bind, Option.some_bind]
      rfl
    · exact ih
    · exact ih

theorem getCPUInfo_isSome (h : Host) : (getCPUInfo h).isSome = true := by
  unfold getCPUInfo
  simp only []
  split_ifs with h1 h2
  · split
    · rename_i data _
      obtain ⟨m, hm⟩ := Option.isSome_iff_exists.mp (getCPUInfo_loop_isSome (Split data '\n'))
      rw [hm]
      rfl
    · rfl
  · split <;> rfl
  · rfl

theorem getDiskInfo_isSome (h : Host) : (getDiskInfo h).isSome = true := by
  unfold getDiskInfo
  split_ifs with h1
  · split
    · simp only []
      split_ifs with h2
      · simp only [List.getElem?_eq_getElem h2, Option.bind_eq_bind, Option.some_bind]
        split_ifs with h3
        · have a2 : 2 < (Fields ((Split ‹GoString› '\n')[1])).length := by omega
          have a1 : 1 < (Fields ((Split ‹GoString› '\n')[1])).length := by omega
          have a4 : 4 < (Fields ((Split ‹GoString› '\n')[1])).length := by omega
          simp only [List.getElem?_eq_getElem a2, List.getElem?_eq_getElem a1,
            List.getElem?_eq_getElem a4, Option.some_bind]
          rfl
        · rfl
      · rfl
    · rfl
  · rfl

theorem getGPUInfo_linuxLoop_isSome (tbl : Char → Char) :
    ∀ lines : List GoString, (getGPUInfo.linuxLoop tbl lines).isSome = true
  | [] => rfl
  | line :: rest => by
    have ih := getGPUInfo_linuxLoop_isSome tbl rest
    unfold getGPUInfo.linuxLoop
    simp only []
    split_ifs with h1 h2
    · have a2 : 2 < (Split line ':').length := by omega
      simp only [List.getElem?_eq_getElem a2, Option.bind_eq_bind, Option.some_bind]
      rfl
    · exact ih
    · exact ih

theorem getGPUInfo_darwinLoop_isSome :
    ∀ lines : List GoString, (getGPUInfo.darwinLoop lines).isSome = true
  | [] => rfl
  | line :: rest => by
    have ih := getGPUInfo_darwinLoop_isSome rest
    unfold getGPUInfo.darwinLoop
    simp only []
    split_ifs with h1 h2
    · simp only [List.getElem?_eq_getElem h2, Option.bind_eq_bind, Option.some_bind]
      rfl
    · exact ih
    · exact ih

theorem getGPUInfo_isSome (h : Host) : (getGPUInfo h).isSome = true := by
  unfold getGPUInfo
  split_ifs with h1 h2
  · split
    · exact getGPUInfo_linuxLoop_isSome _ _
    · rfl
  · split
    · exact getGPUInfo_darwinLoop_isSome _
    · rfl
  · rfl

theorem getUptime_isSome (h : Host) : (getUptime h).isSome = true := by
  unfold getUptime
  split_ifs with h1 h2
  · split
    · simp only []
      split_ifs with h3
      · simp only [List.getElem?_eq_getElem h3, Option.bind_eq_bind, Option.some_bind]
        rfl
      · rfl
    · rfl
  · split <;> rfl
  · rfl

/-- C9: on every host (every value of every environment variable, every content
of every pseudo-file, every command output, the empty string and strings of
separators included) the index expressions of `getShell`, `getTerminal`,
`getKernelVersion`, `getCPUInfo`, `getDiskInfo` and `getGPUInfo` are in range:
each probe returns a string and never takes the out-of-range branch. -/
theorem probes_never_panic (h : Host) :
    (∃ r, getShell h = some r) ∧ (∃ r, getTerminal h = some r)
    ∧ (∃ r, getKernelVersion h = some r) ∧ (∃ r, getCPUInfo h = some r)
    ∧ (∃ r, getDiskInfo h = some r) ∧ (∃ r, getGPUInfo h = some r) :=
  ⟨Option.isSome_iff_exists.mp (getShell_isSome h),
    Option.isSome_iff_exists.mp (getTerminal_isSome h),
    Option.isSome_iff_exists.mp (getKernelVersion_isSome h),
    Option.isSome_iff_exists.mp (getCPUInfo_isSome h),
    Option.isSome_iff_exists.mp (getDiskInfo_isSome h),
    Option.isSome_iff_exists.mp (getGPUInfo_isSome h)⟩

/-! ## The kernel probe -/

/-- C4, the claim fails: on darwin, when `uname -r` succeeds with an output of
white space only (here a single newline), `getKernelVersion` returns the empty
string. -/
theorem getKernelVersion_darwin_blank_output :
    ((bareHost "darwin".toList).withOutput "uname".toList ["-r".toList] "\n".toList).goos
        = "darwin".toList
    ∧ ((bareHost "darwin".toList).withOutput "uname".toList ["-r".toList] "\n".toList).output
        "uname".toList ["-r".toList] = some "\n".toList
    ∧ getKernelVersion
        ((bareHost "darwin".toList).withOutput "uname".toList ["-r".toList] "\n".toList)
        = some [] := by
  decide

/-- C4, amended: on linux and darwin `getKernelVersion` returns `Unknown` when the
read of `/proc/version` or the command `uname -r` fails; on linux it returns a
non-empty string for every content read; on darwin it returns the command output
trimmed of surrounding white space, which is non-empty exactly when the output
has a rune that is not white space. -/
theorem getKernelVersion_result (h : Host) :
    (h.goos = "linux".toList → h.readFile "/proc/version".toList = none →
      getKernelVersion h = some "Unknown".toList)
    ∧ (h.goos = "darwin".toList → h.output "uname".toList ["-r".toList] = none →
      getKernelVersion h = some "Unknown".toList)
    ∧ (h.goos = "linux".toList → ∀ data, h.readFile "/proc/version".toList = some data →
      ∃ r, getKernelVersion h = some r ∧ r ≠ [])
    ∧ (h.goos = "darwin".toList → ∀ out, h.output "uname".toList ["-r".toList] = some out →
      getKernelVersion h = some (TrimSpace out)
        ∧ (TrimSpace out ≠ [] ↔ ∃ c ∈ out, isSpace c = false)) := by
  have hne : "darwin".toList ≠ "linux".toList := by decide
  refine ⟨?_, ?_, ?_, ?_⟩
  · intro hl hr
    unfold getKernelVersion
    rw [if_pos hl, hr]
  · intro hd hr
    unfold getKernelVersion
    rw [if_neg (by rw [hd]; exact hne), if_pos hd, hr]
  · intro hl data hr
    unfold getKernelVersion
    rw [if_pos hl, hr]
    simp only []
    split_ifs with h3
    · have a2 : 2 < (Fields data).length := by omega
      refine ⟨(Fields data)[2], List.getElem?_eq_getElem a2, ?_⟩
      exact Fields_ne_nil_of_mem data _ (List.getElem_mem a2)
    · exact ⟨_, rfl, by decide⟩
  · intro hd out hr
    unfold getKernelVersion
    rw [if_neg (by rw [hd]; exact hne), if_pos hd, hr]
    refine ⟨rfl, ?_⟩
    rw [ne_eq, TrimSpace_eq_nil_iff]
    constructor
    · intro hh
      by_contra hcon
      apply hh
      intro c hc
      by_contra hs
      exact hcon ⟨c, hc, by simpa using hs⟩
    · rintro ⟨c, hc, hs⟩ hall
      rw [hall c hc] at hs
      exact absurd hs (by decide)

/-- Witness for C4: one host for each of the four cases. -/
theorem getKernelVersion_result_witness :
    getKernelVersion (bareHost "linux".toList) = some "Unknown".toList
    ∧ getKernelVersion (bareHost "darwin".toList) = some "Unknown".toList
    ∧ (∃ r, getKernelVersion ((bareHost "linux".toList).withFile "/proc/version".toList
          "Linux version 6.1.0-13-amd64 (gcc)".toList) = some r ∧ r ≠ [])
    ∧ getKernelVersion ((bareHost "darwin".toList).withOutput "uname".toList ["-r".toList]
          "23.1.0\n".toList) = some (TrimSpace "23.1.0\n".toList) :=
  ⟨(getKernelVersion_result (bareHost "linux".toList)).1 (by decide) (by decide),
    (getKernelVersion_result (bareHost "darwin".toList)).2.1 (by decide) (by decide),
    (getKernelVersion_result ((bareHost "linux".toList).withFile "/proc/version".toList
        "Linux version 6.1.0-13-amd64 (gcc)".toList)).2.2.1 (by decide)
      "Linux version 6.1.0-13-amd64 (gcc)".toList (by decide),
    ((getKernelVersion_result ((bareHost "darwin".toList).withOutput "uname".toList
        ["-r".toList] "23.1.0\n".toList)).2.2.2 (by decide) "23.1.0\n".toList (by decide)).1⟩

/-! ## The GPU probe -/

theorem getGPUInfo_linuxLoop_eq (tbl : Char → Char) :
    ∀ lines : List GoString, getGPUInfo.linuxLoop tbl lines =
      some (match lines.find? (fun l => Spec.namesGPU tbl l && decide (3 ≤ (Split l ':').length)) with
        | some l => TrimSpace ((Split l ':').getD 2 [])
        | none => [])
  | [] => rfl
  | line :: rest => by
    have ih := getGPUInfo_linuxLoop_eq tbl rest
    unfold getGPUInfo.linuxLoop
    simp only []
    rw [List.find?_cons]
    by_cases h1 : Spec.namesGPU tbl line = true
    · have h1' : (Contains (ToLower tbl line) "vga".toList
          || Contains (ToLower tbl line) "3d".toList) = true := h1
      rw [if_pos h1']
      by_cases h2 : 3 ≤ (Split line ':').length
      · have a2 : 2 < (Split line ':').length := by omega
        have hp : (Spec.namesGPU tbl line && decide (3 ≤ (Split line ':').length)) = true := by
          simp [h1, h2]
        rw [if_pos h2, hp]
        simp only [List.getElem?_eq_getElem a2, Option.bind_eq_bind, Option.some_bind,
          List.getD_eq_getElem?_getD, Option.getD_some]
        rfl
      · have hp : (Spec.namesGPU tbl line && decide (3 ≤ (Split line ':').length)) = false := by
          simp [h1, h2]
        rw [if_neg h2, hp]
        exact ih
    · have h1' : ¬ (Contains (ToLower tbl line) "vga".toList
          || Contains (ToLower tbl line) "3d".toList) = true := h1
      have hp : (Spec.namesGPU tbl line && decide (3 ≤ (Split line ':').length)) = false := by
        simp [h1]
      rw [if_neg h1', hp]
      exact ih

/-- C8, the claim fails: a first matching line with fewer than three
colon-delimited segments is passed over, and a later matching line then decides
the result.  Two `lspci` outputs with the same first matching line give
different results. -/
theorem getGPUInfo_later_line_decides :
    Spec.namesGPU (fun c => c) "00:02.0 VGA compatible controller".toList = true
    ∧ getGPUInfo ((bareHost "linux".toList).withOutput "lspci".toList []
        "00:02.0 VGA compatible controller\n01:00.0 3D controller: NVIDIA GA107\n".toList)
        = some "NVIDIA GA107".toList
    ∧ getGPUInfo ((bareHost "linux".toList).withOutput "lspci".toList []
        "00:02.0 VGA compatible controller\n01:00.0 3D controller: AMD Navi\n".toList)
        = some "AMD Navi".toList := by
  decide

/-- C8, amended: on linux, for every successful `lspci` output, the result of
`getGPUInfo` is determined by the first line that contains `vga` or `3d` (letter
case ignored) and has at least three colon-delimited segments: it is the third
segment of that line, trimmed; the lines after it never influence the result.
With no such line, or on a platform that is neither linux nor darwin, the result
is the empty string. -/
theorem getGPUInfo_first_usable_line (h : Host) :
    (h.goos = "linux".toList → ∀ out, h.output "lspci".toList [] = some out →
      getGPUInfo h = some
        (match (Split out '\n').find?
            (fun l => Spec.namesGPU h.unicodeLower l && decide (3 ≤ (Split l ':').length)) with
          | some l => TrimSpace ((Split l ':').getD 2 [])
          | none => []))
    ∧ (h.goos = "linux".toList → ∀ out, h.output "lspci".toList [] = some out →
      (∀ l ∈ Split out '\n', Spec.namesGPU h.unicodeLower l = false) → getGPUInfo h = some [])
    ∧ (h.goos ≠ "linux".toList → h.goos ≠ "darwin".toList → getGPUInfo h = some []) := by
  have key : h.goos = "linux".toList → ∀ out, h.output "lspci".toList [] = some out →
      getGPUInfo h = some
        (match (Split out '\n').find?
            (fun l => Spec.namesGPU h.unicodeLower l && decide (3 ≤ (Split l ':').length)) with
          | some l => TrimSpace ((Split l ':').getD 2 [])
          | none => []) := by
    intro hl out ho
    unfold getGPUInfo
    rw [if_pos hl, ho]
    exact getGPUInfo_linuxLoop_eq _ _
  refine ⟨key, ?_, ?_⟩
  · intro hl out ho hall
    rw [key hl out ho]
    have : (Split out '\n').find?
        (fun l => Spec.namesGPU h.unicodeLower l && decide (3 ≤ (Split l ':').length)) = none := by
      rw [List.find?_eq_none]
      intro l hmem
      simp [hall l hmem]
    rw [this]
  · intro h1 h2
    unfold getGPUInfo
    rw [if_neg h1, if_neg h2]

/-- Witness for C8: a linux host with a usual `lspci` output, one whose output
names no GPU, and a host of another platform. -/
theorem getGPUInfo_first_usable_line_witness :
    getGPUInfo ((bareHost "linux".toList).withOutput "lspci".toList []
        "00:00.0 Host bridge: Intel\n00:02.0 VGA compatible controller: Intel UHD 620 \n".toList)
      = some "Intel UHD 620".toList
    ∧ getGPUInfo ((bareHost "linux".toList).withOutput "lspci".toList []
        "00:00.0 Host bridge: Intel\n".toList) = some []
    ∧ getGPUInfo (bareHost "windows".toList) = some [] :=
  ⟨((getGPUInfo_first_usable_line ((bareHost "linux".toList).withOutput "lspci".toList []
        "00:00.0 Host bridge: Intel\n00:02.0 VGA compatible controller: Intel UHD 620 \n".toList)).1
      (by decide)
      "00:00.0 Host bridge: Intel\n00:02.0 VGA compatible controller: Intel UHD 620 \n".toList
      (by decide)).trans (by decide),
    (getGPUInfo_first_usable_line ((bareHost "linux".toList).withOutput "lspci".toList []
        "00:00.0 Host bridge: Intel\n".toList)).2.1 (by decide)
      "00:00.0 Host bridge: Intel\n".toList (by decide) (by decide),
    (getGPUInfo_first_usable_line (bareHost "windows".toList)).2.2 (by decide) (by decide)⟩

/-! ## The report -/

theorem Split_append_sep (sep : Char) (rest : GoString) :
    ∀ a : GoString, sep ∉ a → Split (a ++ sep :: rest) sep = a :: Split rest sep
  | [], _ => by simp [Split]
  | c :: cs, ha => by
    have hc : c ≠ sep := fun e => ha (by simp [e])
    have hcs : sep ∉ cs := fun e => ha (by simp [e])
    rw [List.cons_append, Split, if_neg hc, Split_append_sep sep rest cs hcs]

theorem printInfo_append (label value rest : GoString) :
    printInfo label value ++ rest = Spec.reportLine label value ++ '\n' :: rest := by
  simp [printInfo, Spec.reportLine]

theorem newline_not_mem_reportLine (label value : GoString) (hl : '\n' ∉ label)
    (hv : '\n' ∉ value) : '\n' ∉ Spec.reportLine label value := by
  have hB : '\n' ∉ Bold := by decide
  have hb : '\n' ∉ Blue := by decide
  have hR : '\n' ∉ Reset := by decide
  have hY : '\n' ∉ Yellow := by decide
  have hc : '\n' ∉ ": ".toList := by decide
  simp only [Spec.reportLine, List.mem_append, not_or]
  exact ⟨⟨⟨⟨⟨⟨⟨hB, hb⟩, hl⟩, hR⟩, hc⟩, hY⟩, hv⟩, hR⟩

theorem Split_printInfo (label value rest : GoString) (hl : '\n' ∉ label) (hv : '\n' ∉ value) :
    Split (printInfo label value ++ rest) '\n'
      = Spec.reportLine label value :: Split rest '\n' := by
  rw [printInfo_append, Split_append_sep '\n' rest _ (newline_not_mem_reportLine label value hl hv)]

/-- C6, the claim fails: a probe result may hold a newline (an environment
variable is returned as it is), and the report then has a line more than
metrics.  With `XDG_CURRENT_DESKTOP` set to two lines and no GPU the report,
split at its newlines, has ten lines (and nothing after the last newline), the
fifth of them without a label. -/
theorem displayInfo_newline_in_value :
    getDesktopEnvironment ((bareHost "linux".toList).setenv "XDG_CURRENT_DESKTOP".toList
        "GNOME\nKDE".toList) = "GNOME\nKDE".toList
    ∧ getGPUInfo ((bareHost "linux".toList).setenv "XDG_CURRENT_DESKTOP".toList
        "GNOME\nKDE".toList) = some []
    ∧ (displayInfo ((bareHost "linux".toList).setenv "XDG_CURRENT_DESKTOP".toList
        "GNOME\nKDE".toList)).map (fun out => Split out '\n')
        = some [Spec.reportLine "OS".toList "linux (box)".toList,
            Spec.reportLine "Kernel".toList "Unknown".toList,
            Spec.reportLine "Uptime".toList "Unknown".toList,
            (Bold ++ Blue) ++ "DE".toList ++ Reset ++ ": ".toList ++ Yellow ++ "GNOME".toList,
            "KDE".toList ++ Reset,
            Spec.reportLine "Terminal".toList "Unknown".toList,
            Spec.reportLine "Shell".toList "Unknown".toList,
            Spec.reportLine "CPU".toList "Unknown (4 cores)".toList,
            Spec.reportLine "Memory".toList "Unknown".toList,
            Spec.reportLine "Disk".toList "Unknown".toList,
            []] := by
  decide

/-- C6, amended: on every host `displayInfo` writes `displayInfo.write` of the ten
probe results; and for every combination of probe results none of which holds a
newline, that report, split at its newlines, consists of exactly one line per
metric, labelled in the fixed order OS, Kernel, Uptime, DE, Terminal, Shell, CPU,
Memory, Disk, followed by one GPU line if and only if the GPU probe result is not
empty, and of nothing else: what follows the last newline is empty. -/
theorem displayInfo_lines :
    (∀ h : Host, ∃ kernel uptime terminal shell cpu disk gpu,
      getKernelVersion h = some kernel ∧ getUptime h = some uptime
      ∧ getTerminal h = some terminal ∧ getShell h = some shell ∧ getCPUInfo h = some cpu
      ∧ getDiskInfo h = some disk ∧ getGPUInfo h = some gpu
      ∧ displayInfo h = some (displayInfo.write (getOSInfo h) kernel uptime
          (getDesktopEnvironment h) terminal shell cpu (getMemoryInfo h) disk gpu))
    ∧ ∀ os kernel uptime de terminal shell cpu memory disk gpu : GoString,
      (∀ v ∈ [os, kernel, uptime, de, terminal, shell, cpu, memory, disk, gpu], '\n' ∉ v) →
      Split (displayInfo.write os kernel uptime de terminal shell cpu memory disk gpu) '\n'
        = [Spec.reportLine "OS".toList os, Spec.reportLine "Kernel".toList kernel,
            Spec.reportLine "Uptime".toList uptime, Spec.reportLine "DE".toList de,
            Spec.reportLine "Terminal".toList terminal, Spec.reportLine "Shell".toList shell,
            Spec.reportLine "CPU".toList cpu, Spec.reportLine "Memory".toList memory,
            Spec.reportLine "Disk".toList disk]
          ++ (if gpu = [] then [] else [Spec.reportLine "GPU".toList gpu])
          ++ [[]] := by
  constructor
  · intro h
    obtain ⟨kernel, hk⟩ := Option.isSome_iff_exists.mp (getKernelVersion_isSome h)
    obtain ⟨uptime, hu⟩ := Option.isSome_iff_exists.mp (getUptime_isSome h)
    obtain ⟨terminal, ht⟩ := Option.isSome_iff_exists.mp (getTerminal_isSome h)
    obtain ⟨shell, hs⟩ := Option.isSome_iff_exists.mp (getShell_isSome h)
    obtain ⟨cpu, hc⟩ := Option.isSome_iff_exists.mp (getCPUInfo_isSome h)
    obtain ⟨disk, hd⟩ := Option.isSome_iff_exists.mp (getDiskInfo_isSome h)
    obtain ⟨gpu, hg⟩ := Option.isSome_iff_exists.mp (getGPUInfo_isSome h)
    refine ⟨kernel, uptime, terminal, shell, cpu, disk, gpu, hk, hu, ht, hs, hc, hd, hg, ?_⟩
    unfold displayInfo
    rw [hk, hu, ht, hs, hc, hd, hg]
    rfl
  · intro os kernel uptime de terminal shell cpu memory disk gpu hall
    have h1 : '\n' ∉ os := hall os (by simp)
    have h2 : '\n' ∉ kernel := hall kernel (by simp)
    have h3 : '\n' ∉ uptime := hall uptime (by simp)
    have h4 : '\n' ∉ de := hall de (by simp)
    have h5 : '\n' ∉ terminal := hall terminal (by simp)
    have h6 : '\n' ∉ shell := hall shell (by simp)
    have h7 : '\n' ∉ cpu := hall cpu (by simp)
    have h8 : '\n' ∉ memory := hall memory (by simp)
    have h9 : '\n' ∉ disk := hall disk (by simp)
    have h10 : '\n' ∉ gpu := hall gpu (by simp)
    have hnil : Split [] '\n' = [[]] := rfl
    unfold displayInfo.write
    simp only []
    by_cases hg : gpu = []
    · rw [if_neg (not_not.mpr hg), if_pos hg]
      rw [← List.append_nil (printInfo "Disk".toList disk)]
      simp only [List.append_assoc]
      rw [Split_printInfo _ _ _ (by decide) h1, Split_printInfo _ _ _ (by decide) h2,
        Split_printInfo _ _ _ (by decide) h3, Split_printInfo _ _ _ (by decide) h4,
        Split_printInfo _ _ _ (by decide) h5, Split_printInfo _ _ _ (by decide) h6,
        Split_printInfo _ _ _ (by decide) h7, Split_printInfo _ _ _ (by decide) h8,
        Split_printInfo _ _ _ (by decide) h9, hnil]
      rfl
    · rw [if_pos hg, if_neg hg]
      rw [← List.append_nil (printInfo "GPU".toList gpu)]
      simp only [List.append_assoc]
      rw [Split_printInfo _ _ _ (by decide) h1, Split_printInfo _ _ _ (by decide) h2,
        Split_printInfo _ _ _ (by decide) h3, Split_printInfo _ _ _ (by decide) h4,
        Split_printInfo _ _ _ (by decide) h5, Split_printInfo _ _ _ (by decide) h6,
        Split_printInfo _ _ _ (by decide) h7, Split_printInfo _ _ _ (by decide) h8,
        Split_printInfo _ _ _ (by decide) h9, Split_printInfo _ _ _ (by decide) h10, hnil]
      rfl

/-- Witness for C6: ten probe results without newline, the GPU one not empty. -/
theorem displayInfo_lines_witness :
    Split (displayInfo.write "linux (box)".toList "6.1.0".toList "1h 30m".toList
        "GNOME".toList "kitty".toList "zsh".toList "Intel (4 cores)".toList
        "8.0G / 16.0G (50%)".toList "20G / 100G (20%)".toList "Intel UHD 620".toList) '\n'
      = [Spec.reportLine "OS".toList "linux (box)".toList,
          Spec.reportLine "Kernel".toList "6.1.0".toList,
          Spec.reportLine "Uptime".toList "1h 30m".toList,
          Spec.reportLine "DE".toList "GNOME".toList,
          Spec.reportLine "Terminal".toList "kitty".toList,
          Spec.reportLine "Shell".toList "zsh".toList,
          Spec.reportLine "CPU".toList "Intel (4 cores)".toList,
          Spec.reportLine "Memory".toList "8.0G / 16.0G (50%)".toList,
          Spec.reportLine "Disk".toList "20G / 100G (20%)".toList]
        ++ (if "Intel UHD 620".toList = [] then []
            else [Spec.reportLine "GPU".toList "Intel UHD 620".toList])
        ++ [[]] :=
  displayInfo_lines.2 _ _ _ _ _ _ _ _ _ _ (by decide)

/-! ## Rounding lemmas -/

theorem roundHalfEven_intCast (n : Int) : roundHalfEven (n : ℚ) = n := by
  unfold roundHalfEven
  simp

theorem floor_le_roundHalfEven (x : ℚ) : ⌊x⌋ ≤ roundHalfEven x := by
  unfold roundHalfEven
  simp only []
  split_ifs <;> omega

theorem roundHalfEven_le_floor_add_one (x : ℚ) : roundHalfEven x ≤ ⌊x⌋ + 1 := by
  unfold roundHalfEven
  simp only []
  split_ifs <;> omega

theorem roundHalfEven_mono {x y : ℚ} (h : x ≤ y) : roundHalfEven x ≤ roundHalfEven y := by
  rcases (Int.floor_mono h).lt_or_eq with hlt | heq
  · calc roundHalfEven x ≤ ⌊x⌋ + 1 := roundHalfEven_le_floor_add_one x
      _ ≤ ⌊y⌋ := hlt
      _ ≤ roundHalfEven y := floor_le_roundHalfEven y
  · unfold roundHalfEven
    simp only []
    rw [heq]
    have hr : x - (⌊y⌋ : ℚ) ≤ y - (⌊y⌋ : ℚ) := by linarith
    split_ifs <;> first | omega | (exfalso; linarith)

theorem two_zpow_pos (k : ℤ) : (0 : ℚ) < 2 ^ k := zpow_pos (by norm_num) k

theorem two_pow_mul_zpow (n : ℕ) (e : ℤ) : (2 : ℚ) ^ n * 2 ^ e = 2 ^ (e + n) := by
  rw [← zpow_natCast, ← zpow_add₀ (by norm_num)]
  congr 1
  ring

theorem cast_two_pow_mul_zpow (n : ℕ) (e : ℤ) : ((2 ^ n : ℤ) : ℚ) * 2 ^ e = 2 ^ (e + n) := by
  rw [Int.cast_pow]
  exact two_pow_mul_zpow n e

theorem roundF64_of_ne_zero {x : ℚ} (hx : x ≠ 0) :
    roundF64 x = roundHalfEven (x / 2 ^ (max (Int.log 2 |x|) (-1022) - 52))
      * 2 ^ (max (Int.log 2 |x|) (-1022) - 52) := by
  unfold roundF64
  rw [if_neg hx]

/-- A dyadic rational with a significand below `2 ^ 53` and an exponent not below
`-1074` is a `float64`: rounding leaves it as it is. -/
theorem roundF64_dyadic (m k : ℤ) (hm : |m| < 2 ^ 53) (hk : -1074 ≤ k) :
    roundF64 ((m : ℚ) * 2 ^ k) = (m : ℚ) * 2 ^ k := by
  by_cases hm0 : m = 0
  · simp [hm0, roundF64]
  have hx : (m : ℚ) * 2 ^ k ≠ 0 := mul_ne_zero (by exact_mod_cast hm0) (two_zpow_pos k).ne'
  rw [roundF64_of_ne_zero hx]
  set e := max (Int.log 2 |(m : ℚ) * 2 ^ k|) (-1022) with he
  have habs : |(m : ℚ) * 2 ^ k| = |(m : ℚ)| * 2 ^ k := by
    rw [abs_mul, abs_of_pos (two_zpow_pos k)]
  have hpos : (0 : ℚ) < |(m : ℚ) * 2 ^ k| := abs_pos.mpr hx
  have hlog : Int.log 2 |(m : ℚ) * 2 ^ k| < k + 53 := by
    rw [← Int.lt_zpow_iff_log_lt (by norm_num) hpos, habs]
    have h1 : |(m : ℚ)| < 2 ^ (53 : ℕ) := by exact_mod_cast hm
    have h2 : ((2 : ℕ) : ℚ) ^ (k + 53) = 2 ^ (53 : ℕ) * 2 ^ k := by
      rw [two_pow_mul_zpow]
      norm_num
    rw [h2]
    exact mul_lt_mul_of_pos_right h1 (two_zpow_pos k)
  have hek : e - 52 ≤ k := by
    have : e ≤ k + 52 := max_le (by omega) (by omega)
    omega
  obtain ⟨j, hj⟩ : ∃ j : ℕ, k - (e - 52) = j := ⟨(k - (e - 52)).toNat, by omega⟩
  have hdiv : (m : ℚ) * 2 ^ k / 2 ^ (e - 52) = ((m * 2 ^ j : ℤ) : ℚ) := by
    rw [mul_div_assoc, ← zpow_sub₀ (by norm_num), hj, zpow_natCast]
    push_cast
    rfl
  rw [hdiv, roundHalfEven_intCast, Int.cast_mul, mul_assoc, cast_two_pow_mul_zpow, ← hj]
  congr 2
  ring

theorem roundF64_intCast (n : ℤ) (hn : |n| < 2 ^ 53) : roundF64 (n : ℚ) = n := by
  have := roundF64_dyadic n 0 hn (by norm_num)
  simpa using this

theorem roundF64_nonneg {x : ℚ} (hx : 0 ≤ x) : 0 ≤ roundF64 x := by
  by_cases h0 : x = 0
  · simp [h0, roundF64]
  rw [roundF64_of_ne_zero h0]
  apply mul_nonneg _ (two_zpow_pos _).le
  have : (0 : ℤ) ≤ roundHalfEven (x / 2 ^ (max (Int.log 2 |x|) (-1022) - 52)) := by
    have h1 := roundHalfEven_mono (x := 0)
      (y := x / 2 ^ (max (Int.log 2 |x|) (-1022) - 52)) (div_nonneg hx (two_zpow_pos _).le)
    have h2 : roundHalfEven 0 = 0 := by
      have := roundHalfEven_intCast 0
      simpa using this
    omega
  exact_mod_cast this

/-- Rounding to `float64` is monotone (stated for non-negative arguments). -/
theorem roundF64_mono {x y : ℚ} (hx : 0 ≤ x) (hxy : x ≤ y) : roundF64 x ≤ roundF64 y := by
  by_cases h0 : x = 0
  · rw [h0]
    have : roundF64 0 = 0 := by simp [roundF64]
    rw [this]
    exact roundF64_nonneg (hx.trans hxy)
  have hxpos : 0 < x := lt_of_le_of_ne hx (Ne.symm h0)
  have hypos : 0 < y := lt_of_lt_of_le hxpos hxy
  rw [roundF64_of_ne_zero h0, roundF64_of_ne_zero hypos.ne', abs_of_pos hxpos, abs_of_pos hypos]
  have hlog : Int.log 2 x ≤ Int.log 2 y := Int.log_mono_right hxpos hxy
  set ex := max (Int.log 2 x) (-1022) with hex
  set ey := max (Int.log 2 y) (-1022) with hey
  have hexy : ex ≤ ey := max_le_max hlog le_rfl
  rcases hexy.lt_or_eq with hlt | heq
  · -- different binades: `2 ^ (ex + 1)` separates the two
    have hxlt : x < 2 ^ (ex + 1) := by
      have h1 : x < ((2 : ℕ) : ℚ) ^ (Int.log 2 x + 1) := Int.lt_zpow_succ_log_self (by norm_num) x
      have h2 : ((2 : ℕ) : ℚ) ^ (Int.log 2 x + 1) ≤ 2 ^ (ex + 1) := by
        push_cast
        exact zpow_le_zpow_right₀ (by norm_num) (by have := le_max_left (Int.log 2 x) (-1022); omega)
      exact lt_of_lt_of_le h1 h2
    have hyge : (2 : ℚ) ^ ey ≤ y := by
      have heylog : ey = Int.log 2 y := by
        have : -1022 ≤ ex := le_max_right _ _
        rcases max_choice (Int.log 2 y) (-1022) with h | h
        · exact h
        · rw [← hey] at h
          omega
      have := Int.zpow_log_le_self (b := 2) (by norm_num) hypos
      rw [heylog]
      exact_mod_cast this
    have hA : (roundHalfEven (x / 2 ^ (ex - 52)) : ℚ) * 2 ^ (ex - 52) ≤ 2 ^ (ex + 1) := by
      have h1 : x / 2 ^ (ex - 52) ≤ ((2 ^ 53 : ℤ) : ℚ) := by
        rw [div_le_iff₀ (two_zpow_pos _)]
        have : ((2 ^ 53 : ℤ) : ℚ) * 2 ^ (ex - 52) = 2 ^ (ex + 1) := by
          rw [cast_two_pow_mul_zpow]
          congr 1
          push_cast
          ring
        rw [this]
        exact hxlt.le
      have h2 := roundHalfEven_mono h1
      rw [roundHalfEven_intCast] at h2
      have h3 : (roundHalfEven (x / 2 ^ (ex - 52)) : ℚ) ≤ ((2 ^ 53 : ℤ) : ℚ) := by exact_mod_cast h2
      calc (roundHalfEven (x / 2 ^ (ex - 52)) : ℚ) * 2 ^ (ex - 52)
          ≤ ((2 ^ 53 : ℤ) : ℚ) * 2 ^ (ex - 52) := mul_le_mul_of_nonneg_right h3 (two_zpow_pos _).le
        _ = 2 ^ (ex + 1) := by
          rw [cast_two_pow_mul_zpow]
          congr 1
          push_cast
          ring
    have hB : (2 : ℚ) ^ ey ≤ (roundHalfEven (y / 2 ^ (ey - 52)) : ℚ) * 2 ^ (ey - 52) := by
      have h1 : ((2 ^ 52 : ℤ) : ℚ) ≤ y / 2 ^ (ey - 52) := by
        rw [le_div_iff₀ (two_zpow_pos _)]
        have : ((2 ^ 52 : ℤ) : ℚ) * 2 ^ (ey - 52) = 2 ^ ey := by
          rw [cast_two_pow_mul_zpow]
          congr 1
          push_cast
          ring
        rw [this]
        exact hyge
      have h2 := roundHalfEven_mono h1
      rw [roundHalfEven_intCast] at h2
      have h3 : ((2 ^ 52 : ℤ) : ℚ) ≤ (roundHalfEven (y / 2 ^ (ey - 52)) : ℚ) := by exact_mod_cast h2
      calc (2 : ℚ) ^ ey = ((2 ^ 52 : ℤ) : ℚ) * 2 ^ (ey - 52) := by
            rw [cast_two_pow_mul_zpow]
            congr 1
            push_cast
            ring
        _ ≤ (roundHalfEven (y / 2 ^ (ey - 52)) : ℚ) * 2 ^ (ey - 52) :=
            mul_le_mul_of_nonneg_right h3 (two_zpow_pos _).le
    have hC : (2 : ℚ) ^ (ex + 1) ≤ 2 ^ ey := zpow_le_zpow_right₀ (by norm_num) (by omega)
    exact hA.trans (hC.trans hB)
  · rw [← heq]
    have h1 : x / 2 ^ (ex - 52) ≤ y / 2 ^ (ex - 52) :=
      div_le_div_of_nonneg_right hxy (two_zpow_pos _).le
    have h2 := roundHalfEven_mono h1
    exact mul_le_mul_of_nonneg_right (by exact_mod_cast h2) (two_zpow_pos _).le

/-! ## Decimal rendering -/

theorem formatNatAux_eq : ∀ (n fuel : Nat) (acc : GoString), n < fuel →
    formatNatAux fuel n acc = formatNatAux (n + 1) n [] ++ acc := by
  intro n
  induction n using Nat.strong_induction_on with
  | _ n ih =>
    intro fuel acc hf
    obtain ⟨f, rfl⟩ : ∃ f, fuel = f + 1 := ⟨fuel - 1, by omega⟩
    by_cases h10 : n < 10
    · simp [formatNatAux, h10]
    · have hlt : n / 10 < n := Nat.div_lt_self (by omega) (by norm_num)
      rw [formatNatAux, if_neg h10, formatNatAux, if_neg h10,
        ih (n / 10) hlt f _ (by omega), ih (n / 10) hlt n [digitChar (n % 10)] hlt]
      simp

theorem formatNat_eq (n : Nat) :
    formatNat n = if n < 10 then [digitChar n] else formatNat (n / 10) ++ [digitChar (n % 10)] := by
  by_cases h10 : n < 10
  · simp [formatNat, formatNatAux, h10]
  · have hlt : n / 10 < n := Nat.div_lt_self (by omega) (by norm_num)
    rw [if_neg h10]
    unfold formatNat
    rw [formatNatAux, if_neg h10, formatNatAux_eq (n / 10) n _ hlt]

theorem digitChar_toNat (d : Nat) (hd : d < 10) : (digitChar d).toNat = 48 + d := by
  interval_cases d <;> rfl

theorem digitsValue_append_singleton (l : GoString) (c : Char) :
    digitsValue (l ++ [c]) = digitsValue l * 10 + (c.toNat - 48) := by
  simp [digitsValue, List.foldl_append]

theorem digitsValue_formatNat (n : Nat) : digitsValue (formatNat n) = n := by
  induction n using Nat.strong_induction_on with
  | _ n ih =>
    rw [formatNat_eq]
    by_cases h10 : n < 10
    · rw [if_pos h10]
      simp [digitsValue, digitChar_toNat n h10]
    · have hlt : n / 10 < n := Nat.div_lt_self (by omega) (by norm_num)
      rw [if_neg h10, digitsValue_append_singleton, ih (n / 10) hlt,
        digitChar_toNat (n % 10) (Nat.mod_lt _ (by norm_num))]
      omega

theorem formatNat_injective {a b : Nat} (h : formatNat a = formatNat b) : a = b := by
  have := congrArg digitsValue h
  rwa [digitsValue_formatNat, digitsValue_formatNat] at this

theorem isDigit_digitChar (d : Nat) (hd : d < 10) : isDigit (digitChar d) = true := by
  interval_cases d <;> rfl

theorem isDigit_of_mem_formatNat (n : Nat) : ∀ c ∈ formatNat n, isDigit c = true := by
  induction n using Nat.strong_induction_on with
  | _ n ih =>
    intro c hc
    rw [formatNat_eq] at hc
    by_cases h10 : n < 10
    · rw [if_pos h10] at hc
      rw [List.mem_singleton.mp hc]
      exact isDigit_digitChar n h10
    · have hlt : n / 10 < n := Nat.div_lt_self (by omega) (by norm_num)
      rw [if_neg h10] at hc
      rcases List.mem_append.mp hc with h | h
      · exact ih (n / 10) hlt c h
      · rw [List.mem_singleton.mp h]
        exact isDigit_digitChar _ (Nat.mod_lt _ (by norm_num))

theorem formatNat_ne_nil (n : Nat) : formatNat n ≠ [] := by
  rw [formatNat_eq]
  split_ifs <;> simp

theorem takeWhile_append_stop (p : Char → Bool) (x : Char) (r : GoString) (hx : p x = false) :
    ∀ l : GoString, (∀ c ∈ l, p c = true) →
      (l ++ x :: r).takeWhile p = l ∧ (l ++ x :: r).dropWhile p = x :: r
  | [], _ => by simp [List.takeWhile, List.dropWhile, hx]
  | c :: cs, hl => by
    have hc : p c = true := hl c (List.mem_cons_self c cs)
    have ih := takeWhile_append_stop p x r hx cs (fun d hd => hl d (List.mem_cons_of_mem c hd))
    simp [List.takeWhile, List.dropWhile, hc, ih.1, ih.2]

/-- Two texts that start with a decimal number followed by a non-digit are equal
only if the numbers, the non-digits and the rests are. -/
theorem formatNat_append_inj {a b : Nat} {x y : Char} {r r' : GoString}
    (hx : isDigit x = false) (hy : isDigit y = false)
    (h : formatNat a ++ x :: r = formatNat b ++ y :: r') : a = b ∧ x = y ∧ r = r' := by
  have ha := takeWhile_append_stop isDigit x r hx (formatNat a) (isDigit_of_mem_formatNat a)
  have hb := takeWhile_append_stop isDigit y r' hy (formatNat b) (isDigit_of_mem_formatNat b)
  have h1 : formatNat a = formatNat b := by rw [← ha.1, ← hb.1, h]
  have h2 : x :: r = y :: r' := by rw [← ha.2, ← hb.2, h]
  exact ⟨formatNat_injective h1, (List.cons.inj h2).1, (List.cons.inj h2).2⟩

theorem formatInt_natCast (n : Nat) : formatInt (n : Int) = formatNat n := by
  unfold formatInt
  rw [if_neg (by omega), Int.natAbs_ofNat]

/-! ## Durations -/

/-- A rational between the natural number `n` and `n + 1 - 2 ^ (-k)` stays there
when rounded to `float64`, as long as both bounds are floats. -/
theorem roundF64_between (n k : ℕ) (x : ℚ) (hn : (n + 1) * 2 ^ k ≤ 2 ^ 53) (hk : k ≤ 1074)
    (h1 : (n : ℚ) ≤ x) (h2 : x ≤ n + 1 - 1 / 2 ^ k) :
    (n : ℚ) ≤ roundF64 x ∧ roundF64 x ≤ n + 1 - 1 / 2 ^ k := by
  have hpow : 1 ≤ 2 ^ k := Nat.one_le_two_pow
  have hn53 : n < 2 ^ 53 := by nlinarith
  constructor
  · have hfix : roundF64 ((n : ℤ) : ℚ) = ((n : ℤ) : ℚ) := by
      apply roundF64_intCast
      rw [abs_of_nonneg (by positivity)]
      exact_mod_cast hn53
    have := roundF64_mono (x := (n : ℚ)) (y := x) (by positivity) h1
    rw [show (n : ℚ) = ((n : ℤ) : ℚ) by simp] at this ⊢
    rwa [hfix] at this
  · have hm : |(((n + 1) * 2 ^ k - 1 : ℕ) : ℤ)| < 2 ^ 53 := by
      rw [abs_of_nonneg (by positivity)]
      have : (n + 1) * 2 ^ k - 1 < 2 ^ 53 := by omega
      exact_mod_cast this
    have hfix := roundF64_dyadic (((n + 1) * 2 ^ k - 1 : ℕ) : ℤ) (-(k : ℤ)) hm (by omega)
    have hval : ((((n + 1) * 2 ^ k - 1 : ℕ) : ℤ) : ℚ) * 2 ^ (-(k : ℤ))
        = (n : ℚ) + 1 - 1 / 2 ^ k := by
      have hle : 1 ≤ (n + 1) * 2 ^ k := by nlinarith
      rw [zpow_neg, zpow_natCast]
      push_cast [Nat.cast_sub hle]
      field_simp
    rw [hval] at hfix
    have hx0 : (0 : ℚ) ≤ x := le_trans (by positivity) h1
    have := roundF64_mono hx0 h2
    rwa [hfix] at this

theorem truncQ_of_between (n : ℕ) (x : ℚ) (h1 : (n : ℚ) ≤ x) (h2 : x < n + 1) :
    truncQ x = n := by
  unfold truncQ
  rw [if_pos (le_trans (by positivity) h1), Int.floor_eq_iff]
  exact ⟨by exact_mod_cast h1, by exact_mod_cast h2⟩

theorem seconds_lt_of_fits {s : ℕ} (hs : (s : ℤ) * 1000000000 < 2 ^ 63) : s < 9223372037 := by
  omega

theorem Duration_Hours_bounds (s : ℕ) (hs : (s : ℤ) * 1000000000 < 2 ^ 63) :
    ((s / 3600 : ℕ) : ℚ) ≤ Duration.Hours ((s : ℤ) * 1000000000)
    ∧ Duration.Hours ((s : ℤ) * 1000000000) ≤ (s / 3600 : ℕ) + 1 - 1 / 2 ^ 12 := by
  have hlt := seconds_lt_of_fits hs
  have hdiv : Int.tdiv ((s : ℤ) * 1000000000) 3600000000000 = ((s / 3600 : ℕ) : ℤ) := by
    rw [Int.tdiv_eq_ediv (by positivity) (by norm_num)]
    omega
  have hmod : Int.tmod ((s : ℤ) * 1000000000) 3600000000000
      = ((s % 3600 * 1000000000 : ℕ) : ℤ) := by
    rw [Int.tmod_eq_emod (by positivity) (by norm_num)]
    omega
  unfold Duration.Hours f64Add f64Div f64OfInt
  simp only [hdiv, hmod]
  have hH : roundF64 (((s / 3600 : ℕ) : ℤ) : ℚ) = ((s / 3600 : ℕ) : ℚ) := by
    rw [roundF64_intCast _ (by rw [abs_of_nonneg (by positivity)]; omega)]
    exact Int.cast_natCast _
  have hN : roundF64 (((s % 3600 * 1000000000 : ℕ) : ℤ) : ℚ)
      = ((s % 3600 * 1000000000 : ℕ) : ℚ) := by
    rw [roundF64_intCast _ (by rw [abs_of_nonneg (by positivity)]; omega)]
    exact Int.cast_natCast _
  rw [hH, hN]
  have hr : s % 3600 ≤ 3599 := by omega
  have hf := roundF64_between 0 12 (((s % 3600 * 1000000000 : ℕ) : ℚ) / 3600000000000)
    (by norm_num) (by norm_num) (by positivity) (by
      rw [div_le_iff₀ (by norm_num)]
      have : ((s % 3600 : ℕ) : ℚ) ≤ 3599 := by exact_mod_cast hr
      push_cast
      norm_num
      linarith)
  simp only [Nat.cast_zero, zero_add] at hf
  exact roundF64_between (s / 3600) 12 _ (by norm_num; omega) (by norm_num)
    (by linarith [hf.1]) (by linarith [hf.2])

theorem Duration_Minutes_bounds (s : ℕ) (hs : (s : ℤ) * 1000000000 < 2 ^ 63) :
    ((s / 60 : ℕ) : ℚ) ≤ Duration.Minutes ((s : ℤ) * 1000000000)
    ∧ Duration.Minutes ((s : ℤ) * 1000000000) ≤ (s / 60 : ℕ) + 1 - 1 / 2 ^ 6 := by
  have hlt := seconds_lt_of_fits hs
  have hdiv : Int.tdiv ((s : ℤ) * 1000000000) 60000000000 = ((s / 60 : ℕ) : ℤ) := by
    rw [Int.tdiv_eq_ediv (by positivity) (by norm_num)]
    omega
  have hmod : Int.tmod ((s : ℤ) * 1000000000) 60000000000
      = ((s % 60 * 1000000000 : ℕ) : ℤ) := by
    rw [Int.tmod_eq_emod (by positivity) (by norm_num)]
    omega
  unfold Duration.Minutes f64Add f64Div f64OfInt
  simp only [hdiv, hmod]
  have hH : roundF64 (((s / 60 : ℕ) : ℤ) : ℚ) = ((s / 60 : ℕ) : ℚ) := by
    rw [roundF64_intCast _ (by rw [abs_of_nonneg (by positivity)]; omega)]
    exact Int.cast_natCast _
  have hN : roundF64 (((s % 60 * 1000000000 : ℕ) : ℤ) : ℚ)
      = ((s % 60 * 1000000000 : ℕ) : ℚ) := by
    rw [roundF64_intCast _ (by rw [abs_of_nonneg (by positivity)]; omega)]
    exact Int.cast_natCast _
  rw [hH, hN]
  have hr : s % 60 ≤ 59 := by omega
  have hf := roundF64_between 0 6 (((s % 60 * 1000000000 : ℕ) : ℚ) / 60000000000)
    (by norm_num) (by norm_num) (by positivity) (by
      rw [div_le_iff₀ (by norm_num)]
      have : ((s % 60 : ℕ) : ℚ) ≤ 59 := by exact_mod_cast hr
      push_cast
      norm_num
      linarith)
  simp only [Nat.cast_zero, zero_add] at hf
  exact roundF64_between (s / 60) 6 _ (by norm_num; omega) (by norm_num)
    (by linarith [hf.1]) (by linarith [hf.2])

/-- The three integers `formatDuration` computes for a duration of `s` whole
seconds that fits a `time.Duration`. -/
theorem formatDuration_parts_eq (s : ℕ) (hs : (s : ℤ) * 1000000000 < 2 ^ 63) :
    formatDuration.parts ((s : ℤ) * 1000000000)
      = (((s / 3600 / 24 : ℕ) : ℤ), ((s / 3600 % 24 : ℕ) : ℤ), ((s / 60 % 60 : ℕ) : ℤ)) := by
  have hlt := seconds_lt_of_fits hs
  have hH := Duration_Hours_bounds s hs
  have hM := Duration_Minutes_bounds s hs
  have hHt : truncQ (Duration.Hours ((s : ℤ) * 1000000000)) = ((s / 3600 : ℕ) : ℤ) :=
    truncQ_of_between _ _ hH.1 (by
      have : (0 : ℚ) < 1 / 2 ^ 12 := by positivity
      linarith [hH.2])
  have hMt : truncQ (Duration.Minutes ((s : ℤ) * 1000000000)) = ((s / 60 : ℕ) : ℤ) :=
    truncQ_of_between _ _ hM.1 (by
      have : (0 : ℚ) < 1 / 2 ^ 6 := by positivity
      linarith [hM.2])
  have hD := roundF64_between (s / 3600 / 24) 17 (Duration.Hours ((s : ℤ) * 1000000000) / 24)
    (by norm_num; omega) (by norm_num)
    (by
      rw [le_div_iff₀ (by norm_num)]
      have h1 : s / 3600 / 24 * 24 ≤ s / 3600 := Nat.div_mul_le_self _ _
      have h2 : ((s / 3600 / 24 : ℕ) : ℚ) * 24 ≤ ((s / 3600 : ℕ) : ℚ) := by exact_mod_cast h1
      linarith [hH.1])
    (by
      rw [div_le_iff₀ (by norm_num)]
      have h1 : s / 3600 ≤ s / 3600 / 24 * 24 + 23 := by omega
      have h2 : ((s / 3600 : ℕ) : ℚ) ≤ ((s / 3600 / 24 : ℕ) : ℚ) * 24 + 23 := by exact_mod_cast h1
      norm_num at hH ⊢
      linarith [hH.2])
  have hDt : truncQ (f64Div (Duration.Hours ((s : ℤ) * 1000000000)) 24)
      = ((s / 3600 / 24 : ℕ) : ℤ) :=
    truncQ_of_between _ _ hD.1 (by
      have : (0 : ℚ) < 1 / 2 ^ 17 := by positivity
      have := hD.2
      unfold f64Div
      linarith)
  unfold formatDuration.parts
  simp only [hHt, hMt, hDt]
  rw [Int.tmod_eq_emod (Int.ofNat_nonneg _) (by decide),
    Int.tmod_eq_emod (Int.ofNat_nonneg _) (by decide)]
  refine Prod.ext ?_ (Prod.ext ?_ ?_)
  · rfl
  · exact (Int.natCast_mod _ _).symm
  · exact (Int.natCast_mod _ _).symm

theorem formatDuration_eq_durationText (s : ℕ) (hs : (s : ℤ) * 1000000000 < 2 ^ 63) :
    formatDuration ((s : ℤ) * 1000000000) = Spec.durationText s := by
  unfold formatDuration Spec.durationText
  rw [formatDuration_parts_eq s hs]
  simp only [formatInt_natCast]
  by_cases hD : s / 3600 / 24 > 0
  · have hD' : ((s / 3600 / 24 : ℕ) : ℤ) > 0 := by exact_mod_cast hD
    rw [if_pos hD', if_pos hD]
  · have hD' : ¬ ((s / 3600 / 24 : ℕ) : ℤ) > 0 := by exact_mod_cast hD
    rw [if_neg hD', if_neg hD]
    have hH24 : s / 3600 % 24 = s / 3600 := by omega
    by_cases hH : s / 3600 > 0
    · have hH' : ((s / 3600 % 24 : ℕ) : ℤ) > 0 := by rw [hH24]; exact_mod_cast hH
      rw [if_pos hH', if_pos hH, hH24]
    · have hH' : ¬ ((s / 3600 % 24 : ℕ) : ℤ) > 0 := by rw [hH24]; exact_mod_cast hH
      have hM : s / 60 % 60 = s / 60 := by omega
      rw [if_neg hH', if_neg hH, hM]

/-- C1: for every duration of `s ≥ 0` whole seconds that a `time.Duration` can hold,
`formatDuration` returns the text of the specification: with `H` the whole hours
and `M` the whole minutes, `{H div 24}d {H mod 24}h {M mod 60}m` when
`H div 24 > 0`, otherwise `{H}h {M mod 60}m` when `H > 0`, otherwise `{M}m`
(exactly one of the three).  0 s gives `0m`, 5400 s gives `1h 30m` and 90000 s
gives `1d 1h 0m`. -/
theorem formatDuration_spec :
    (∀ s : ℕ, (s : ℤ) * 1000000000 < 2 ^ 63 →
      formatDuration ((s : ℤ) * 1000000000) = Spec.durationText s)
    ∧ formatDuration (((0 : ℕ) : ℤ) * 1000000000) = "0m".toList
    ∧ formatDuration (((5400 : ℕ) : ℤ) * 1000000000) = "1h 30m".toList
    ∧ formatDuration (((90000 : ℕ) : ℤ) * 1000000000) = "1d 1h 0m".toList :=
  ⟨formatDuration_eq_durationText,
    (formatDuration_eq_durationText 0 (by norm_num)).trans (by decide),
    (formatDuration_eq_durationText 5400 (by norm_num)).trans (by decide),
    (formatDuration_eq_durationText 90000 (by norm_num)).trans (by decide)⟩

/-- Witness for C1: the duration of 3661 seconds. -/
theorem formatDuration_spec_witness :
    ((3661 : ℕ) : ℤ) * 1000000000 < 2 ^ 63
    ∧ formatDuration (((3661 : ℕ) : ℤ) * 1000000000) = "1h 1m".toList :=
  ⟨by norm_num, (formatDuration_spec.1 3661 (by norm_num)).trans (by decide)⟩

theorem durationText_shape (s : ℕ) :
    Spec.durationText s =
      if s / 3600 / 24 > 0 then
        formatNat (s / 3600 / 24) ++ 'd' :: ' ' :: (formatNat (s / 3600 % 24) ++ 'h' :: ' ' ::
          (formatNat (s / 60 % 60) ++ ['m']))
      else if s / 3600 > 0 then
        formatNat (s / 3600) ++ 'h' :: ' ' :: (formatNat (s / 60 % 60) ++ ['m'])
      else formatNat (s / 60) ++ ['m'] := by
  unfold Spec.durationText
  simp only []
  split_ifs <;> simp [List.append_assoc]

theorem durationText_injective (s t : ℕ) (h : Spec.durationText s = Spec.durationText t) :
    s / 60 = t / 60 := by
  have hd : isDigit 'd' = false := by decide
  have hh : isDigit 'h' = false := by decide
  have hm : isDigit 'm' = false := by decide
  rw [durationText_shape, durationText_shape] at h
  split_ifs at h with a1 a2 a3 a4 a5 a6
  · obtain ⟨e1, _, r1⟩ := formatNat_append_inj hd hd h
    obtain ⟨e2, _, r2⟩ := formatNat_append_inj hh hh (List.cons.inj r1).2
    obtain ⟨e3, _, _⟩ := formatNat_append_inj hm hm (List.cons.inj r2).2
    omega
  · obtain ⟨_, e, _⟩ := formatNat_append_inj hd hh h
    exact absurd e (by decide)
  · obtain ⟨_, e, _⟩ := formatNat_append_inj hd hm h
    exact absurd e (by decide)
  · obtain ⟨_, e, _⟩ := formatNat_append_inj hh hd h
    exact absurd e (by decide)
  · obtain ⟨e2, _, r2⟩ := formatNat_append_inj hh hh h
    obtain ⟨e3, _, _⟩ := formatNat_append_inj hm hm (List.cons.inj r2).2
    omega
  · obtain ⟨_, e, _⟩ := formatNat_append_inj hh hm h
    exact absurd e (by decide)
  · obtain ⟨_, e, _⟩ := formatNat_append_inj hm hd h
    exact absurd e (by decide)
  · obtain ⟨_, e, _⟩ := formatNat_append_inj hm hh h
    exact absurd e (by decide)
  · obtain ⟨e3, _, _⟩ := formatNat_append_inj hm hm h
    exact e3

/-- C10: for a duration of `s ≥ 0` whole seconds that a `time.Duration` can hold,
the `days`, `hours`, `minutes` computed by `formatDuration` satisfy
`0 ≤ hours < 24`, `0 ≤ minutes < 60` and
`days * 1440 + hours * 60 + minutes = s div 60`, the whole minutes of the
duration; and two such durations with different whole-minute counts are
rendered as different strings. -/
theorem formatDuration_keeps_minutes :
    (∀ s : ℕ, (s : ℤ) * 1000000000 < 2 ^ 63 →
      0 ≤ (formatDuration.parts ((s : ℤ) * 1000000000)).2.1
      ∧ (formatDuration.parts ((s : ℤ) * 1000000000)).2.1 < 24
      ∧ 0 ≤ (formatDuration.parts ((s : ℤ) * 1000000000)).2.2
      ∧ (formatDuration.parts ((s : ℤ) * 1000000000)).2.2 < 60
      ∧ (formatDuration.parts ((s : ℤ) * 1000000000)).1 * 1440
          + (formatDuration.parts ((s : ℤ) * 1000000000)).2.1 * 60
          + (formatDuration.parts ((s : ℤ) * 1000000000)).2.2 = ((s / 60 : ℕ) : ℤ))
    ∧ (∀ s t : ℕ, (s : ℤ) * 1000000000 < 2 ^ 63 → (t : ℤ) * 1000000000 < 2 ^ 63 →
      s / 60 ≠ t / 60 →
      formatDuration ((s : ℤ) * 1000000000) ≠ formatDuration ((t : ℤ) * 1000000000)) := by
  constructor
  · intro s hs
    rw [formatDuration_parts_eq s hs]
    simp only []
    omega
  · intro s t hs ht hne heq
    rw [formatDuration_eq_durationText s hs, formatDuration_eq_durationText t ht] at heq
    exact hne (durationText_injective s t heq)

/-- Witness for C10: the durations of 3661 and 3725 seconds. -/
theorem formatDuration_keeps_minutes_witness :
    (formatDuration.parts (((3661 : ℕ) : ℤ) * 1000000000)).1 * 1440
        + (formatDuration.parts (((3661 : ℕ) : ℤ) * 1000000000)).2.1 * 60
        + (formatDuration.parts (((3661 : ℕ) : ℤ) * 1000000000)).2.2 = ((3661 / 60 : ℕ) : ℤ)
    ∧ formatDuration (((3661 : ℕ) : ℤ) * 1000000000)
        ≠ formatDuration (((3725 : ℕ) : ℤ) * 1000000000) :=
  ⟨(formatDuration_keeps_minutes.1 3661 (by norm_num)).2.2.2.2,
    formatDuration_keeps_minutes.2 3661 3725 (by norm_num) (by norm_num) (by decide)⟩

/-! ## The uptime probe -/

theorem truncQ_zero : truncQ 0 = 0 := by
  unfold truncQ
  simp

theorem formatDuration_zero : formatDuration 0 = "0m".toList := by
  have h := formatDuration_eq_durationText 0 (by norm_num)
  simp only [Nat.cast_zero, zero_mul] at h
  rw [h]
  decide

/-- C3, the code at the failing inputs.  On linux with `/proc/uptime` holding
`abc 12.5`, the scan of the first field `abc` fails (the operand keeps its 0) and
`getUptime` returns `0m`.  On darwin with the command output `garbage`, the scan
for `{ sec = %d` fails (the boot time keeps its 0) and `getUptime` returns the
time elapsed since the Unix epoch.  Neither is `Unknown`. -/
theorem getUptime_parse_failure :
    Fields "abc 12.5\n".toList = ["abc".toList, "12.5".toList]
    ∧ sscanfFloat (fun _ => none) "abc".toList = none
    ∧ getUptime ((bareHost "linux".toList).withFile "/proc/uptime".toList "abc 12.5\n".toList)
        = some "0m".toList
    ∧ sscanfInt "garbage".toList "\x7b sec = %d".toList = none
    ∧ getUptime ((bareHost "darwin".toList).withOutput "sysctl".toList
          ["-n".toList, "kern.boottime".toList] "garbage".toList)
        = some "19675d 22h 13m".toList := by
  refine ⟨by decide, by decide, ?_, by decide, ?_⟩
  · have hf : Fields "abc 12.5\n".toList = ["abc".toList, "12.5".toList] := by decide
    have hs : sscanfFloat (fun _ => none) "abc".toList = none := by decide
    have hw : wrap64 (0 * 1000000000) = 0 := by decide
    unfold getUptime
    rw [if_pos (by decide)]
    have hr : ((bareHost "linux".toList).withFile "/proc/uptime".toList
        "abc 12.5\n".toList).readFile "/proc/uptime".toList = some "abc 12.5\n".toList := by
      decide
    rw [hr]
    simp only [hf]
    have he : ((bareHost "linux".toList).withFile "/proc/uptime".toList
        "abc 12.5\n".toList).exoticFloat = fun _ => none := rfl
    rw [he]
    simp only [List.length_cons, List.length_nil, gt_iff_lt, Nat.zero_lt_succ, if_true,
      List.getElem?_cons_zero, Option.bind_eq_bind, Option.some_bind, hs, Option.getD_none,
      durationOfFloat, truncQ_zero]
    have hw0 : wrap64 0 = 0 := by decide
    norm_num [hw0, formatDuration_zero]
  · have hs : sscanfInt "garbage".toList "\x7b sec = %d".toList = none := by decide
    have hu : sinceUnix ((bareHost "darwin".toList).withOutput "sysctl".toList
        ["-n".toList, "kern.boottime".toList] "garbage".toList) 0
        = ((1700000000 : ℕ) : ℤ) * 1000000000 := by decide
    unfold getUptime
    rw [if_neg (by decide), if_pos (by decide)]
    have hr : ((bareHost "darwin".toList).withOutput "sysctl".toList
        ["-n".toList, "kern.boottime".toList] "garbage".toList).output "sysctl".toList
        ["-n".toList, "kern.boottime".toList] = some "garbage".toList := by decide
    rw [hr]
    simp only [hs, Option.getD_none, hu]
    rw [formatDuration_eq_durationText 1700000000 (by norm_num)]
    decide

/-! ## Scanning a line of `/proc/meminfo` -/

theorem isDigit_bounds {c : Char} (h : isDigit c = true) : 48 ≤ c.toNat ∧ c.toNat ≤ 57 := by
  unfold isDigit at h
  simpa using h

theorem isSpace_of_isDigit {c : Char} (h : isDigit c = true) : isSpace c = false := by
  have hb := isDigit_bounds h
  unfold isSpace
  simp only [Bool.or_eq_false_iff, Bool.and_eq_false_iff, decide_eq_false_iff_not, beq_eq_false_iff_ne]
  omega

theorem ne_of_isDigit {c x : Char} (h : isDigit c = true) (hx : isDigit x = false) : c ≠ x := by
  intro e
  rw [e, hx] at h
  exact absurd h (by decide)

theorem SkipSpace_of_isDigit (c : Char) (r : GoString) (h : isDigit c = true) :
    SkipSpace (c :: r) = some (c :: r) := by
  unfold SkipSpace
  rw [if_neg (ne_of_isDigit h (by decide)), isSpace_of_isDigit h]
  rfl

theorem scanSign_of_isDigit (c : Char) (r : GoString) (h : isDigit c = true) :
    scanSign (c :: r) = (false, c :: r) := by
  unfold scanSign
  split
  · rename_i r' h2
    exact absurd (List.cons.inj h2).1 (ne_of_isDigit h (by decide))
  · rename_i r' h2
    exact absurd (List.cons.inj h2).1 (ne_of_isDigit h (by decide))
  · rfl

theorem scanInt_formatNat (v : ℕ) (hv : (v : ℤ) < 2 ^ 63) (x : Char) (r : GoString)
    (hx : isDigit x = false) : scanInt (formatNat v ++ x :: r) = some (v : ℤ) := by
  obtain ⟨d0, D, hD⟩ : ∃ d0 D, formatNat v = d0 :: D := by
    cases h : formatNat v with
    | nil => exact absurd h (formatNat_ne_nil v)
    | cons d0 D => exact ⟨d0, D, rfl⟩
  have hd0 : isDigit d0 = true := isDigit_of_mem_formatNat v d0 (by rw [hD]; simp)
  have htw := (takeWhile_append_stop isDigit x r hx (formatNat v) (isDigit_of_mem_formatNat v)).1
  unfold scanInt
  rw [hD, List.cons_append, SkipSpace_of_isDigit d0 _ hd0]
  simp only [Option.bind_eq_bind, Option.some_bind, scanSign_of_isDigit d0 _ hd0]
  rw [← List.cons_append, ← hD, htw, if_neg (formatNat_ne_nil v), digitsValue_formatNat]
  simp only [Bool.false_eq_true, if_false]
  rw [if_pos ⟨by omega, hv⟩]

theorem scanToVerb_literal (fmt inp : GoString) :
    ∀ (cs : GoString) (c : Char) (sp : Bool),
      (∀ d ∈ c :: cs, d ≠ '%' ∧ isSpace d = false) →
      scanToVerb sp ((c :: cs) ++ fmt) ((c :: cs) ++ inp) = scanToVerb false fmt inp
  | [], c, sp, h => by
    have hc := h c (List.mem_cons_self c [])
    simp only [List.cons_append, List.nil_append]
    rw [scanToVerb, if_neg hc.1, hc.2]
    simp
  | c' :: cs, c, sp, h => by
    have hc := h c (List.mem_cons_self c _)
    have ih := scanToVerb_literal fmt inp cs c' false
      (fun d hd => h d (List.mem_cons_of_mem c hd))
    rw [List.cons_append, List.cons_append c (c' :: cs), scanToVerb, if_neg hc.1, hc.2]
    simp only [Bool.false_eq_true, if_false, if_true]
    exact ih

theorem dropWhile_replicate_space (k : ℕ) (c : Char) (rest : GoString)
    (hc : isDigit c = true) :
    (List.replicate k ' ' ++ c :: rest).dropWhile (fun y => isSpace y && y != '\n')
      = c :: rest := by
  induction k with
  | zero =>
    simp only [List.replicate_zero, List.nil_append, List.dropWhile_cons,
      isSpace_of_isDigit hc, Bool.false_and]
    rfl
  | succ k ih =>
    rw [List.replicate_succ, List.cons_append, List.dropWhile_cons]
    have : (isSpace ' ' && ' ' != '\n') = true := by decide
    rw [this]
    exact ih

/-- Scanning a `/proc/meminfo` line with the format made of its key, a colon, a
space and `%d` stores the value of the line. -/
theorem sscanfInt_meminfoLine (key : GoString) (k v : ℕ) (tail : GoString)
    (hkey : ∀ d ∈ key ++ ":".toList, d ≠ '%' ∧ isSpace d = false) (hk : 1 ≤ k)
    (hv : (v : ℤ) < 2 ^ 63) :
    sscanfInt (Spec.meminfoLine key k v) (key ++ ":".toList ++ ' ' :: '%' :: 'd' :: tail)
      = some (v : ℤ) := by
  obtain ⟨d0, D, hD⟩ : ∃ d0 D, formatNat v = d0 :: D := by
    cases h : formatNat v with
    | nil => exact absurd h (formatNat_ne_nil v)
    | cons d0 D => exact ⟨d0, D, rfl⟩
  have hd0 : isDigit d0 = true := isDigit_of_mem_formatNat v d0 (by rw [hD]; simp)
  obtain ⟨c, cs, hcs⟩ : ∃ c cs, key ++ ":".toList = c :: cs := by
    cases h : key ++ ":".toList with
    | nil => simp at h
    | cons c cs => exact ⟨c, cs, rfl⟩
  obtain ⟨k', rfl⟩ : ∃ k', k = k' + 1 := ⟨k - 1, by omega⟩
  unfold sscanfInt Spec.meminfoLine
  have hline : key ++ ":".toList ++ List.replicate (k' + 1) ' ' ++ formatNat v ++ " kB".toList
      = (c :: cs) ++ (' ' :: (List.replicate k' ' ' ++ d0 :: (D ++ " kB".toList))) := by
    rw [hcs, hD, List.replicate_succ]
    simp
  rw [hline, hcs, scanToVerb_literal _ _ cs c false (by rw [← hcs]; exact hkey)]
  rw [scanToVerb, if_neg (by decide)]
  have hsp : isSpace ' ' = true := by decide
  simp only [hsp, Bool.false_eq_true, if_false, if_true]
  have hsp2 : (isSpace ' ' && ' ' != '\n') = true := by decide
  have hsp3 : (true && ' ' != '\n') = true := by decide
  rw [if_pos hsp3, List.dropWhile_cons, hsp2]
  simp only [if_true]
  rw [dropWhile_replicate_space k' d0 _ hd0, scanToVerb, if_pos rfl]
  simp only [Option.bind_eq_bind, Option.some_bind]
  rw [SkipSpace_of_isDigit d0 _ hd0]
  simp only [Option.some_bind]
  have := scanInt_formatNat v hv ' ' "kB".toList (by decide)
  rw [hD] at this
  exact this

/-! ## More on rounding -/

/-- The integer nearest to `z`, the even one at a tie, is `roundHalfEven z`. -/
theorem roundHalfEven_eq_of {z : ℚ} {n : ℤ}
    (h : |z - n| < 1 / 2 ∨ (|z - n| = 1 / 2 ∧ n % 2 = 0)) : roundHalfEven z = n := by
  have hf1 : (⌊z⌋ : ℚ) ≤ z := Int.floor_le z
  have hf2 : z < (⌊z⌋ : ℚ) + 1 := Int.lt_floor_add_one z
  rcases h with h | ⟨h, he⟩
  · rw [abs_lt] at h
    have h1 : ⌊z⌋ ≤ n := by
      have : (⌊z⌋ : ℚ) < (n : ℚ) + 1 := by linarith [h.2]
      have : ⌊z⌋ < n + 1 := by exact_mod_cast this
      omega
    have h2 : n - 1 ≤ ⌊z⌋ := by
      have : (n : ℚ) - 2 < (⌊z⌋ : ℚ) := by linarith [h.1]
      have : n - 2 < ⌊z⌋ := by exact_mod_cast this
      omega
    rcases (show ⌊z⌋ = n ∨ ⌊z⌋ = n - 1 by omega) with hfn | hfn
    · unfold roundHalfEven
      simp only []
      rw [hfn, if_pos (by linarith [h.2])]
    · unfold roundHalfEven
      simp only []
      rw [hfn]
      have hc : ((n - 1 : ℤ) : ℚ) = (n : ℚ) - 1 := by push_cast; ring
      rw [hc, if_neg (by linarith [h.1]), if_pos (by linarith [h.1])]
      ring
  · rcases abs_eq (by norm_num : (0 : ℚ) ≤ 1 / 2) |>.mp h with hz | hz
    · have hzv : z = (n : ℚ) + 1 / 2 := by linarith
      have hfn : ⌊z⌋ = n := by
        rw [Int.floor_eq_iff]
        constructor <;> linarith
      unfold roundHalfEven
      simp only []
      rw [hfn, if_neg (by linarith), if_neg (by linarith), if_pos he]
    · have hzv : z = (n : ℚ) - 1 / 2 := by linarith
      have hfn : ⌊z⌋ = n - 1 := by
        rw [Int.floor_eq_iff]
        push_cast
        constructor <;> linarith
      unfold roundHalfEven
      simp only []
      rw [hfn]
      have hc : ((n - 1 : ℤ) : ℚ) = (n : ℚ) - 1 := by push_cast; ring
      rw [hc, if_neg (by linarith), if_neg (by linarith), if_neg (by omega)]
      ring

theorem roundHalfEven_spec (z : ℚ) :
    |z - roundHalfEven z| < 1 / 2
      ∨ (|z - roundHalfEven z| = 1 / 2 ∧ roundHalfEven z % 2 = 0) := by
  have hf1 : (⌊z⌋ : ℚ) ≤ z := Int.floor_le z
  have hf2 : z < (⌊z⌋ : ℚ) + 1 := Int.lt_floor_add_one z
  unfold roundHalfEven
  simp only []
  split_ifs with h1 h2 h3
  · left
    rw [abs_lt]
    constructor <;> linarith
  · left
    rw [abs_lt]
    push_cast
    constructor <;> linarith
  · right
    have hr : z - (⌊z⌋ : ℚ) = 1 / 2 := le_antisymm (not_lt.mp h2) (not_lt.mp h1)
    exact ⟨by rw [hr]; norm_num, h3⟩
  · right
    have hr : z - (⌊z⌋ : ℚ) = 1 / 2 := le_antisymm (not_lt.mp h2) (not_lt.mp h1)
    refine ⟨?_, by omega⟩
    push_cast
    have : z - ((⌊z⌋ : ℚ) + 1) = -(1 / 2) := by linarith
    rw [this, abs_neg]
    norm_num

theorem roundHalfEven_abs_sub_le (z : ℚ) : |z - roundHalfEven z| ≤ 1 / 2 := by
  rcases roundHalfEven_spec z with h | h
  · exact h.le
  · exact h.1.le

theorem roundHalfEven_neg (z : ℚ) : roundHalfEven (-z) = -roundHalfEven z := by
  apply roundHalfEven_eq_of
  have e : -z - ((-roundHalfEven z : ℤ) : ℚ) = -(z - roundHalfEven z) := by
    push_cast
    ring
  rw [e, abs_neg]
  rcases roundHalfEven_spec z with h | h
  · exact Or.inl h
  · exact Or.inr ⟨h.1, by omega⟩

theorem roundF64_neg (x : ℚ) : roundF64 (-x) = -roundF64 x := by
  by_cases h0 : x = 0
  · simp [h0, roundF64]
  · rw [roundF64_of_ne_zero h0, roundF64_of_ne_zero (neg_ne_zero.mpr h0), abs_neg, neg_div,
      roundHalfEven_neg]
    push_cast
    ring

/-- The relative error of rounding a positive normal number to `float64` is at
most `2 ^ (-53)`. -/
theorem roundF64_error {x : ℚ} (hx : 0 < x) (hn : (2 : ℚ) ^ (-1022 : ℤ) ≤ x) :
    |x - roundF64 x| ≤ x / 2 ^ 53 := by
  have hlog : -1022 ≤ Int.log 2 x := by
    rw [← Int.zpow_le_iff_le_log (by norm_num) hx]
    exact_mod_cast hn
  rw [roundF64_of_ne_zero hx.ne', abs_of_pos hx, max_eq_left hlog]
  set e := Int.log 2 x with he
  have hu : (0 : ℚ) < 2 ^ (e - 52) := two_zpow_pos _
  have hle : (2 : ℚ) ^ e ≤ x := by
    have := Int.zpow_log_le_self (b := 2) (by norm_num) hx
    exact_mod_cast this
  have h1 := roundHalfEven_abs_sub_le (x / 2 ^ (e - 52))
  have h2 : x - (roundHalfEven (x / 2 ^ (e - 52)) : ℚ) * 2 ^ (e - 52)
      = (x / 2 ^ (e - 52) - roundHalfEven (x / 2 ^ (e - 52))) * 2 ^ (e - 52) := by
    rw [sub_mul, div_mul_cancel₀ _ hu.ne']
  rw [h2, abs_mul, abs_of_pos hu]
  have h3 : (2 : ℚ) ^ (e - 52) = 2 ^ e / 2 ^ 52 := by
    rw [zpow_sub₀ (by norm_num)]
    norm_num
  calc |x / 2 ^ (e - 52) - roundHalfEven (x / 2 ^ (e - 52))| * 2 ^ (e - 52)
      ≤ 1 / 2 * 2 ^ (e - 52) := mul_le_mul_of_nonneg_right h1 hu.le
    _ = 2 ^ e / 2 ^ 53 := by rw [h3]; ring
    _ ≤ x / 2 ^ 53 := div_le_div_of_nonneg_right hle (by positivity)

/-- Rounding the quotient of an integer below `2 ^ 52` in size by a positive
integer below `2 ^ 53` to `float64` does not change the integer nearest to it. -/
theorem roundHalfEven_roundF64_ratio (n t : ℕ) (ht : 0 < t) (ht53 : t < 2 ^ 53)
    (hn : n < 2 ^ 52) :
    roundHalfEven (roundF64 ((n : ℚ) / t)) = roundHalfEven ((n : ℚ) / t) := by
  have htq : (0 : ℚ) < t := by exact_mod_cast ht
  by_cases hn0 : n = 0
  · simp [hn0, roundF64]
  have hnq : (0 : ℚ) < n := by exact_mod_cast Nat.pos_of_ne_zero hn0
  have hq : (0 : ℚ) < (n : ℚ) / t := div_pos hnq htq
  set q := (n : ℚ) / t with hqdef
  set m := roundHalfEven q with hm
  have hnorm : (2 : ℚ) ^ (-1022 : ℤ) ≤ q := by
    have h1 : (1 : ℚ) / t ≤ q := by
      rw [hqdef]
      apply div_le_div_of_nonneg_right _ htq.le
      exact_mod_cast Nat.pos_of_ne_zero hn0
    have h2 : (2 : ℚ) ^ (-1022 : ℤ) ≤ 1 / 2 ^ (53 : ℕ) := by
      rw [zpow_neg, one_div, zpow_ofNat]
      apply inv_anti₀ (by positivity)
      exact pow_le_pow_right₀ (by norm_num) (by norm_num)
    have h3 : (1 : ℚ) / 2 ^ (53 : ℕ) ≤ 1 / t := by
      apply one_div_le_one_div_of_le htq
      exact_mod_cast ht53.le
    exact le_trans h2 (le_trans h3 h1)
  have herr := roundF64_error hq hnorm
  have herr2 : q / 2 ^ 53 < 1 / (2 * t) := by
    rw [hqdef, div_div, div_lt_div_iff₀ (by positivity) (by positivity)]
    have : (n : ℚ) < 2 ^ 52 := by exact_mod_cast hn
    nlinarith
  rcases roundHalfEven_spec q with h | ⟨h, he⟩
  · -- not a tie: the distance to `m` is at most `1/2 - 1/(2t)`
    apply roundHalfEven_eq_of
    left
    have hdist : |q - m| ≤ 1 / 2 - 1 / (2 * t) := by
      have e1 : q - m = ((n : ℤ) - m * t : ℤ) / (t : ℚ) := by
        rw [hqdef]
        push_cast
        field_simp
        ring
      have h2 : |(((n : ℤ) - m * t : ℤ) : ℚ)| < (t : ℚ) / 2 := by
        rw [e1, abs_div, abs_of_pos htq, div_lt_iff₀ htq] at h
        linarith
      have h3 : 2 * |(n : ℤ) - m * t| < (t : ℤ) := by
        have : (2 : ℚ) * |(((n : ℤ) - m * t : ℤ) : ℚ)| < t := by linarith
        rw [← Int.cast_abs] at this
        exact_mod_cast this
      have h4 : 2 * |(n : ℤ) - m * t| ≤ (t : ℤ) - 1 := by omega
      have h5 : (2 : ℚ) * |(((n : ℤ) - m * t : ℤ) : ℚ)| ≤ (t : ℚ) - 1 := by
        rw [← Int.cast_abs]
        exact_mod_cast h4
      rw [e1, abs_div, abs_of_pos htq, div_le_iff₀ htq]
      have : (1 / 2 - 1 / (2 * (t : ℚ))) * t = (t - 1) / 2 := by
        field_simp
        ring
      rw [this]
      linarith
    calc |roundF64 q - m| = |(q - m) - (q - roundF64 q)| := by ring_nf
      _ ≤ |q - m| + |q - roundF64 q| := abs_sub _ _
      _ < 1 / 2 := by linarith
  · -- a tie: `q` is a half-integer, hence a float
    have hfix : roundF64 q = q := by
      have hq2 : q = ((2 * m + 1 : ℤ) : ℚ) * 2 ^ (-1 : ℤ) ∨ q = ((2 * m - 1 : ℤ) : ℚ) * 2 ^ (-1 : ℤ) := by
        rcases abs_eq (by norm_num : (0 : ℚ) ≤ 1 / 2) |>.mp h with hz | hz
        · left
          push_cast
          rw [zpow_neg, zpow_one]
          linarith
        · right
          push_cast
          rw [zpow_neg, zpow_one]
          linarith
      have hqlt : q < 2 ^ 52 := by
        have h1 : q ≤ n := by
          rw [hqdef]
          apply div_le_self hnq.le
          exact_mod_cast ht
        have : (n : ℚ) < 2 ^ 52 := by exact_mod_cast hn
        linarith
      have hmb : (m : ℚ) ≤ q + 1 / 2 ∧ q - 1 / 2 ≤ (m : ℚ) := by
        have := abs_le.mp h.le
        constructor <;> linarith [this.1, this.2]
      have hm0 : (0 : ℚ) ≤ (m : ℚ) + 1 / 2 := by linarith [hmb.2]
      have hmlo : (0 : ℤ) ≤ m := by
        have : (-1 : ℚ) < m := by linarith
        have : (-1 : ℤ) < m := by exact_mod_cast this
        omega
      have hmhi : m < 2 ^ 52 + 1 := by
        have : (m : ℚ) < 2 ^ 52 + 1 := by linarith [hmb.1]
        exact_mod_cast this
      rcases hq2 with e | e
      · have hm' : m < 2 ^ 52 := by
          by_contra hcon
          have : m = 2 ^ 52 := by omega
          rw [this] at e
          push_cast at e
          rw [zpow_neg, zpow_one] at e
          linarith
        rw [e]
        exact roundF64_dyadic _ _ (by rw [abs_of_nonneg (by omega)]; omega) (by norm_num)
      · rw [e]
        have hpos : 0 < 2 * m - 1 := by
          have : (0 : ℚ) < ((2 * m - 1 : ℤ) : ℚ) * 2 ^ (-1 : ℤ) := by rw [← e]; exact hq
          have h2 : (0 : ℚ) < ((2 * m - 1 : ℤ) : ℚ) := by
            rw [zpow_neg, zpow_one] at this
            linarith
          exact_mod_cast h2
        exact roundF64_dyadic _ _ (by rw [abs_of_pos hpos]; omega) (by norm_num)
    rw [hfix]

theorem roundF64_pos {x : ℚ} (hx : 0 < x) (hn : (2 : ℚ) ^ (-1022 : ℤ) ≤ x) : 0 < roundF64 x := by
  have h := abs_le.mp (roundF64_error hx hn)
  have : x / 2 ^ 53 < x := div_lt_self hx (by norm_num)
  linarith [h.2]

/-! ## The memory probe -/

theorem formatFixed_zero_eq (x : ℚ) :
    formatFixed 0 x
      = if x < 0 then '-' :: formatNat (roundHalfEven |x|).toNat
        else formatNat (roundHalfEven |x|).toNat := by
  unfold formatFixed
  simp

theorem formatFixed_zero_roundF64 (z : ℤ) (t : ℕ) (ht : 0 < t) (ht53 : t < 2 ^ 53)
    (hz : |z| < 2 ^ 52) :
    formatFixed 0 (roundF64 ((z : ℚ) / t)) = formatFixed 0 ((z : ℚ) / t) := by
  have htq : (0 : ℚ) < t := by exact_mod_cast ht
  rw [formatFixed_zero_eq, formatFixed_zero_eq]
  rcases le_or_lt 0 z with hz0 | hz0
  · obtain ⟨n, rfl⟩ : ∃ n : ℕ, z = n := ⟨z.toNat, by omega⟩
    have hn : n < 2 ^ 52 := by
      rw [abs_of_nonneg hz0] at hz
      exact_mod_cast hz
    have hq : (0 : ℚ) ≤ ((n : ℤ) : ℚ) / t := div_nonneg (by positivity) htq.le
    have hr := roundF64_nonneg hq
    rw [if_neg (not_lt.mpr hr), if_neg (not_lt.mpr hq), abs_of_nonneg hr, abs_of_nonneg hq]
    have := roundHalfEven_roundF64_ratio n t ht ht53 hn
    rw [Int.cast_natCast, this]
  · obtain ⟨n, hn0, rfl⟩ : ∃ n : ℕ, 0 < n ∧ z = -(n : ℤ) := ⟨(-z).toNat, by omega, by omega⟩
    have hn : n < 2 ^ 52 := by
      rw [abs_neg, abs_of_nonneg (by positivity)] at hz
      exact_mod_cast hz
    have hnq : (0 : ℚ) < n := by exact_mod_cast hn0
    have hq : (0 : ℚ) < (n : ℚ) / t := div_pos hnq htq
    have hnorm : (2 : ℚ) ^ (-1022 : ℤ) ≤ (n : ℚ) / t := by
      have h1 : (1 : ℚ) / t ≤ (n : ℚ) / t := by
        apply div_le_div_of_nonneg_right _ htq.le
        exact_mod_cast hn0
      have h2 : (2 : ℚ) ^ (-1022 : ℤ) ≤ 1 / 2 ^ (53 : ℕ) := by
        rw [zpow_neg, one_div, zpow_ofNat]
        apply inv_anti₀ (by positivity)
        exact pow_le_pow_right₀ (by norm_num) (by norm_num)
      have h3 : (1 : ℚ) / 2 ^ (53 : ℕ) ≤ 1 / t := by
        apply one_div_le_one_div_of_le htq
        exact_mod_cast ht53.le
      exact le_trans h2 (le_trans h3 h1)
    have hr := roundF64_pos hq hnorm
    have e : ((-(n : ℤ) : ℤ) : ℚ) / t = -((n : ℚ) / t) := by
      push_cast
      ring
    rw [e, roundF64_neg, if_pos (by linarith), if_pos (by linarith), abs_neg, abs_neg,
      abs_of_pos hr, abs_of_pos hq, roundHalfEven_roundF64_ratio n t ht ht53 hn]

theorem f64_scale_exact (z : ℤ) (hz : |z| < 2 ^ 53) :
    f64Div (f64Div (f64OfInt z) 1024) 1024 = (z : ℚ) / 1024 ^ 2 := by
  unfold f64Div f64OfInt
  rw [roundF64_intCast z hz]
  have h1 : (z : ℚ) / 1024 = (z : ℚ) * 2 ^ (-10 : ℤ) := by
    rw [zpow_neg, div_eq_mul_inv]
    norm_num
  have h2 : (z : ℚ) * 2 ^ (-10 : ℤ) / 1024 = (z : ℚ) * 2 ^ (-20 : ℤ) := by
    rw [zpow_neg, zpow_neg, div_eq_mul_inv, mul_assoc]
    norm_num
  rw [h1, roundF64_dyadic z (-10) hz (by norm_num), h2,
    roundF64_dyadic z (-20) hz (by norm_num), zpow_neg, div_eq_mul_inv]
  norm_num

/-- The text `getMemoryInfo` builds from `total = t` and `available = a` is the
text of the specification, for sizes below `2 ^ 45` kB. -/
theorem memory_arith (t a : ℕ) (ht : 0 < t) (ht45 : t < 2 ^ 45) (ha45 : a < 2 ^ 45) :
    formatFixed 1 (f64Div (f64Div (f64OfInt (wrap64 ((t : ℤ) - a))) 1024) 1024)
        ++ "G / ".toList ++ formatFixed 1 (f64Div (f64Div (f64OfInt (t : ℤ)) 1024) 1024)
        ++ "G (".toList
        ++ formatFixed 0 (f64Div (f64Mul (f64OfInt (wrap64 ((t : ℤ) - a))) 100) (f64OfInt (t : ℤ)))
        ++ "%)".toList
      = Spec.memoryText t a := by
  have hw : wrap64 ((t : ℤ) - a) = (t : ℤ) - a := by
    unfold wrap64
    omega
  have hu : |(t : ℤ) - a| < 2 ^ 45 := by
    rw [abs_lt]
    constructor <;> omega
  have hu53 : |(t : ℤ) - a| < 2 ^ 53 := lt_trans hu (by norm_num)
  have ht53 : |(t : ℤ)| < 2 ^ 53 := by
    rw [abs_of_nonneg (by positivity)]
    omega
  have hu100 : |((t : ℤ) - a) * 100| < 2 ^ 52 := by
    rw [abs_mul]
    have : |(100 : ℤ)| = 100 := by norm_num
    rw [this]
    have hpos := abs_nonneg ((t : ℤ) - a)
    omega
  rw [hw, f64_scale_exact _ hu53, f64_scale_exact _ ht53]
  have hp : f64Div (f64Mul (f64OfInt ((t : ℤ) - a)) 100) (f64OfInt (t : ℤ))
      = roundF64 (((((t : ℤ) - a) * 100 : ℤ) : ℚ) / t) := by
    unfold f64Div f64Mul f64OfInt
    rw [roundF64_intCast _ hu53, roundF64_intCast _ ht53]
    have e : (((t : ℤ) - a : ℤ) : ℚ) * 100 = ((((t : ℤ) - a) * 100 : ℤ) : ℚ) := by push_cast; ring
    rw [e, roundF64_intCast _ (lt_trans hu100 (by norm_num))]
    simp
  rw [hp, formatFixed_zero_roundF64 _ t ht (by omega) hu100]
  unfold Spec.memoryText
  push_cast
  rfl

theorem getMemoryInfo_loop_spec (t a : ℤ) :
    ∀ (lines : List GoString) (st : Int × Int),
      (∀ l ∈ lines, HasPrefix l "MemTotal:".toList = true →
        sscanfInt l "MemTotal: %d kB".toList = some t) →
      (∀ l ∈ lines, HasPrefix l "MemTotal:".toList = false →
        HasPrefix l "MemAvailable:".toList = true →
        sscanfInt l "MemAvailable: %d kB".toList = some a) →
      getMemoryInfo.loop lines st
        = (if ∃ l ∈ lines, HasPrefix l "MemTotal:".toList = true then t else st.1,
           if ∃ l ∈ lines, HasPrefix l "MemTotal:".toList = false
              ∧ HasPrefix l "MemAvailable:".toList = true then a else st.2)
  | [], st, _, _ => by simp [getMemoryInfo.loop]
  | line :: rest, (total, available), hT, hA => by
    have hT' : ∀ l ∈ rest, HasPrefix l "MemTotal:".toList = true →
        sscanfInt l "MemTotal: %d kB".toList = some t :=
      fun l hl => hT l (List.mem_cons_of_mem _ hl)
    have hA' : ∀ l ∈ rest, HasPrefix l "MemTotal:".toList = false →
        HasPrefix l "MemAvailable:".toList = true →
        sscanfInt l "MemAvailable: %d kB".toList = some a :=
      fun l hl => hA l (List.mem_cons_of_mem _ hl)
    unfold getMemoryInfo.loop
    by_cases h1 : HasPrefix line "MemTotal:".toList = true
    · rw [if_pos h1, hT line (List.mem_cons_self _ _) h1, Option.getD_some,
        getMemoryInfo_loop_spec t a rest _ hT' hA']
      simp only [List.exists_mem_cons_iff, h1, true_or, if_true, Bool.true_eq_false, false_and,
        false_or]
      split_ifs <;> rfl
    · have h1' : HasPrefix line "MemTotal:".toList = false := by simpa using h1
      rw [if_neg h1]
      by_cases h2 : HasPrefix line "MemAvailable:".toList = true
      · rw [if_pos h2, hA line (List.mem_cons_self _ _) h1' h2, Option.getD_some,
          getMemoryInfo_loop_spec t a rest _ hT' hA']
        simp only [List.exists_mem_cons_iff, h1', h2, Bool.false_eq_true, false_or, true_and,
          true_or, if_true, and_self]
        split_ifs <;> rfl
      · have h2' : HasPrefix line "MemAvailable:".toList = false := by simpa using h2
        rw [if_neg h2, getMemoryInfo_loop_spec t a rest _ hT' hA']
        simp only [List.exists_mem_cons_iff, h1', h2', Bool.false_eq_true, false_or, and_false,
          true_and]

theorem getMemoryInfo_loop_total_le (lines : List GoString) :
    ∀ st : Int × Int, st.1 ≤ 0 →
      (∀ l ∈ lines, HasPrefix l "MemTotal:".toList = true →
        ∀ v, sscanfInt l "MemTotal: %d kB".toList = some v → v ≤ 0) →
      (getMemoryInfo.loop lines st).1 ≤ 0 := by
  induction lines with
  | nil =>
    intro st hst _
    simpa [getMemoryInfo.loop] using hst
  | cons line rest ih =>
    rintro ⟨total, available⟩ hst hl
    have hl' : ∀ l ∈ rest, HasPrefix l "MemTotal:".toList = true →
        ∀ v, sscanfInt l "MemTotal: %d kB".toList = some v → v ≤ 0 :=
      fun l hmem => hl l (List.mem_cons_of_mem _ hmem)
    unfold getMemoryInfo.loop
    split_ifs with h1 h2
    · apply ih _ _ hl'
      cases hs : sscanfInt line "MemTotal: %d kB".toList with
      | none => simpa using hst
      | some v => simpa using hl line (List.mem_cons_self _ _) h1 v hs
    · exact ih _ hst hl'
    · exact ih _ hst hl'

theorem HasPrefix_meminfoLine_total (k t : ℕ) :
    HasPrefix (Spec.meminfoLine "MemTotal".toList k t) "MemTotal:".toList = true := by
  simp [HasPrefix, Spec.meminfoLine, List.isPrefixOf]

theorem HasPrefix_meminfoLine_available (k a : ℕ) :
    HasPrefix (Spec.meminfoLine "MemAvailable".toList k a) "MemAvailable:".toList = true := by
  simp [HasPrefix, Spec.meminfoLine, List.isPrefixOf]

theorem getMemoryInfo_linux (h : Host) (data : GoString) (t a : ℕ)
    (hos : h.goos = "linux".toList) (hread : h.readFile "/proc/meminfo".toList = some data)
    (ht : 0 < t) (ht45 : t < 2 ^ 45) (ha45 : a < 2 ^ 45)
    (hT1 : ∃ l ∈ Split data '\n', HasPrefix l "MemTotal:".toList = true)
    (hT2 : ∀ l ∈ Split data '\n', HasPrefix l "MemTotal:".toList = true →
      ∃ k, 1 ≤ k ∧ l = Spec.meminfoLine "MemTotal".toList k t)
    (hA1 : ∃ l ∈ Split data '\n', HasPrefix l "MemAvailable:".toList = true)
    (hA2 : ∀ l ∈ Split data '\n', HasPrefix l "MemAvailable:".toList = true →
      ∃ k, 1 ≤ k ∧ l = Spec.meminfoLine "MemAvailable".toList k a) :
    getMemoryInfo h = Spec.memoryText t a := by
  have hT : ∀ l ∈ Split data '\n', HasPrefix l "MemTotal:".toList = true →
      sscanfInt l "MemTotal: %d kB".toList = some (t : ℤ) := by
    intro l hl hp
    obtain ⟨k, hk, rfl⟩ := hT2 l hl hp
    exact sscanfInt_meminfoLine "MemTotal".toList k t " kB".toList (by decide) hk (by omega)
  have hA : ∀ l ∈ Split data '\n', HasPrefix l "MemTotal:".toList = false →
      HasPrefix l "MemAvailable:".toList = true →
      sscanfInt l "MemAvailable: %d kB".toList = some (a : ℤ) := by
    intro l hl _ hp
    obtain ⟨k, hk, rfl⟩ := hA2 l hl hp
    exact sscanfInt_meminfoLine "MemAvailable".toList k a " kB".toList (by decide) hk (by omega)
  have hA1' : ∃ l ∈ Split data '\n', HasPrefix l "MemTotal:".toList = false
      ∧ HasPrefix l "MemAvailable:".toList = true := by
    obtain ⟨l, hl, hp⟩ := hA1
    refine ⟨l, hl, ?_, hp⟩
    obtain ⟨k, _, rfl⟩ := hA2 l hl hp
    simp [HasPrefix, Spec.meminfoLine, List.isPrefixOf]
  have hloop := getMemoryInfo_loop_spec t a (Split data '\n') (0, 0) hT hA
  rw [if_pos hT1, if_pos hA1'] at hloop
  unfold getMemoryInfo
  rw [if_pos hos, hread]
  simp only [hloop]
  rw [if_pos (by exact_mod_cast ht)]
  exact memory_arith t a ht ht45 ha45

theorem roundHalfEven_natCast (n : ℕ) : roundHalfEven (n : ℚ) = n := by
  have := roundHalfEven_intCast (n : ℤ)
  simpa using this

theorem memoryText_example :
    Spec.memoryText 16777216 8388608 = "8.0G / 16.0G (50%)".toList := by
  unfold Spec.memoryText formatFixed
  have e1 : |(((16777216 : ℕ) : ℚ) - ((8388608 : ℕ) : ℚ)) / 1024 ^ 2| * 10 ^ 1
      = ((80 : ℕ) : ℚ) := by norm_num
  have e2 : |((16777216 : ℕ) : ℚ) / 1024 ^ 2| * 10 ^ 1 = ((160 : ℕ) : ℚ) := by norm_num
  have e3 : |(((16777216 : ℕ) : ℚ) - ((8388608 : ℕ) : ℚ)) * 100 / ((16777216 : ℕ) : ℚ)| * 10 ^ 0
      = ((50 : ℕ) : ℚ) := by norm_num
  simp only [e1, e2, e3, roundHalfEven_natCast, Int.toNat_ofNat]
  have s1 : ¬ (((16777216 : ℕ) : ℚ) - ((8388608 : ℕ) : ℚ)) / 1024 ^ 2 < 0 := by norm_num
  have s2 : ¬ ((16777216 : ℕ) : ℚ) / 1024 ^ 2 < 0 := by norm_num
  have s3 : ¬ (((16777216 : ℕ) : ℚ) - ((8388608 : ℕ) : ℚ)) * 100 / ((16777216 : ℕ) : ℚ) < 0 := by
    norm_num
  rw [if_neg s1, if_neg s2, if_neg s3]
  decide

theorem getMemoryInfo_unknown (h : Host) (data : GoString)
    (hos : h.goos = "linux".toList) (hread : h.readFile "/proc/meminfo".toList = some data)
    (hz : ∀ l ∈ Split data '\n', HasPrefix l "MemTotal:".toList = true →
      ∀ v, sscanfInt l "MemTotal: %d kB".toList = some v → v ≤ 0) :
    getMemoryInfo h = "Unknown".toList := by
  have hle := getMemoryInfo_loop_total_le (Split data '\n') (0, 0) le_rfl hz
  unfold getMemoryInfo
  rw [if_pos hos, hread]
  simp only []
  rw [if_neg (not_lt.mpr hle)]

theorem getMemoryInfo_example :
    getMemoryInfo ((bareHost "linux".toList).withFile "/proc/meminfo".toList
      "MemTotal:       16777216 kB\nMemFree:          524288 kB\nMemAvailable:    8388608 kB\n".toList)
      = "8.0G / 16.0G (50%)".toList := by
  have hs : Split
      "MemTotal:       16777216 kB\nMemFree:          524288 kB\nMemAvailable:    8388608 kB\n".toList
      '\n' = ["MemTotal:       16777216 kB".toList, "MemFree:          524288 kB".toList,
        "MemAvailable:    8388608 kB".toList, []] := by decide
  rw [← memoryText_example]
  apply getMemoryInfo_linux _
    "MemTotal:       16777216 kB\nMemFree:          524288 kB\nMemAvailable:    8388608 kB\n".toList
    16777216 8388608 (by decide) (by decide) (by norm_num) (by norm_num) (by norm_num)
  · rw [hs]
    exact ⟨_, List.mem_cons_self _ _, by decide⟩
  · rw [hs]
    intro l hl hp
    simp only [List.mem_cons, List.mem_singleton, List.not_mem_nil, or_false] at hl
    rcases hl with rfl | rfl | rfl | rfl
    · exact ⟨7, by norm_num, by decide⟩
    · exact absurd hp (by decide)
    · exact absurd hp (by decide)
    · exact absurd hp (by decide)
  · rw [hs]
    exact ⟨"MemAvailable:    8388608 kB".toList, by simp, by decide⟩
  · rw [hs]
    intro l hl hp
    simp only [List.mem_cons, List.mem_singleton, List.not_mem_nil, or_false] at hl
    rcases hl with rfl | rfl | rfl | rfl
    · exact absurd hp (by decide)
    · exact absurd hp (by decide)
    · exact ⟨4, by norm_num, by decide⟩
    · exact absurd hp (by decide)

/-- C2, amended: on linux, for every readable `/proc/meminfo` content whose lines
that start with `MemTotal:` are all `MemTotal: t kB` and whose lines that start
with `MemAvailable:` are all `MemAvailable: a kB` (one or more spaces after the
colon, at least one line of each kind), with `0 < t < 2 ^ 45` and `a < 2 ^ 45`,
`getMemoryInfo` returns `<u>G / <T>G (<p>%)` where `u = (t - a) / 1024 ^ 2` and
`T = t / 1024 ^ 2` are rendered with one decimal and `p = (t - a) * 100 / t` with
no decimal; for `t = 16777216` and `a = 8388608` the result is exactly
`8.0G / 16.0G (50%)`.  When no positive `MemTotal` is read (no such line, or lines
that scan to zero or not at all) the result is `Unknown`. -/
theorem getMemoryInfo_spec :
    (∀ (h : Host) (data : GoString) (t a : ℕ),
      h.goos = "linux".toList → h.readFile "/proc/meminfo".toList = some data →
      0 < t → t < 2 ^ 45 → a < 2 ^ 45 →
      (∃ l ∈ Split data '\n', HasPrefix l "MemTotal:".toList = true) →
      (∀ l ∈ Split data '\n', HasPrefix l "MemTotal:".toList = true →
        ∃ k, 1 ≤ k ∧ l = Spec.meminfoLine "MemTotal".toList k t) →
      (∃ l ∈ Split data '\n', HasPrefix l "MemAvailable:".toList = true) →
      (∀ l ∈ Split data '\n', HasPrefix l "MemAvailable:".toList = true →
        ∃ k, 1 ≤ k ∧ l = Spec.meminfoLine "MemAvailable".toList k a) →
      getMemoryInfo h = Spec.memoryText t a)
    ∧ Spec.memoryText 16777216 8388608 = "8.0G / 16.0G (50%)".toList
    ∧ getMemoryInfo ((bareHost "linux".toList).withFile "/proc/meminfo".toList
        "MemTotal:       16777216 kB\nMemFree:          524288 kB\nMemAvailable:    8388608 kB\n".toList)
        = "8.0G / 16.0G (50%)".toList
    ∧ (∀ (h : Host) (data : GoString),
      h.goos = "linux".toList → h.readFile "/proc/meminfo".toList = some data →
      (∀ l ∈ Split data '\n', HasPrefix l "MemTotal:".toList = true →
        ∀ v, sscanfInt l "MemTotal: %d kB".toList = some v → v ≤ 0) →
      getMemoryInfo h = "Unknown".toList) :=
  ⟨fun h data t a hos hread ht ht45 ha45 hT1 hT2 hA1 hA2 =>
      getMemoryInfo_linux h data t a hos hread ht ht45 ha45 hT1 hT2 hA1 hA2,
    memoryText_example, getMemoryInfo_example,
    fun h data hos hread hz => getMemoryInfo_unknown h data hos hread hz⟩

/-- Witness for C2: a host whose `/proc/meminfo` is `MemTotal: 2048 kB` and
`MemAvailable: 512 kB`, and a host whose `/proc/meminfo` has no `MemTotal:` line. -/
theorem getMemoryInfo_spec_witness :
    getMemoryInfo ((bareHost "linux".toList).withFile "/proc/meminfo".toList
        "MemTotal: 2048 kB\nMemAvailable: 512 kB\n".toList) = Spec.memoryText 2048 512
    ∧ getMemoryInfo ((bareHost "linux".toList).withFile "/proc/meminfo".toList
        "MemFree: 512 kB\n".toList) = "Unknown".toList :=
  ⟨getMemoryInfo_spec.1 _ "MemTotal: 2048 kB\nMemAvailable: 512 kB\n".toList 2048 512
      (by decide) (by decide) (by norm_num) (by norm_num) (by norm_num)
      ⟨"MemTotal: 2048 kB".toList, by decide, by decide⟩
      (by
        intro l hl hp
        have hs : Split "MemTotal: 2048 kB\nMemAvailable: 512 kB\n".toList '\n'
            = ["MemTotal: 2048 kB".toList, "MemAvailable: 512 kB".toList, []] := by decide
        rw [hs] at hl
        simp only [List.mem_cons, List.mem_singleton, List.not_mem_nil, or_false] at hl
        rcases hl with rfl | rfl | rfl
        · exact ⟨1, le_rfl, by decide⟩
        · exact absurd hp (by decide)
        · exact absurd hp (by decide))
      ⟨"MemAvailable: 512 kB".toList, by decide, by decide⟩
      (by
        intro l hl hp
        have hs : Split "MemTotal: 2048 kB\nMemAvailable: 512 kB\n".toList '\n'
            = ["MemTotal: 2048 kB".toList, "MemAvailable: 512 kB".toList, []] := by decide
        rw [hs] at hl
        simp only [List.mem_cons, List.mem_singleton, List.not_mem_nil, or_false] at hl
        rcases hl with rfl | rfl | rfl
        · exact absurd hp (by decide)
        · exact ⟨1, le_rfl, by decide⟩
        · exact absurd hp (by decide)),
    getMemoryInfo_spec.2.2.2 _ "MemFree: 512 kB\n".toList (by decide) (by decide)
      (by
        intro l hl hp
        have hs : Split "MemFree: 512 kB\n".toList '\n' = ["MemFree: 512 kB".toList, []] := by
          decide
        rw [hs] at hl
        simp only [List.mem_cons, List.mem_singleton, List.not_mem_nil, or_false] at hl
        rcases hl with rfl | rfl
        · exact absurd hp (by decide)
        · exact absurd hp (by decide))⟩

theorem formatFixed_eval (prec : ℕ) (x : ℚ) (n : ℕ) (hx : 0 ≤ x)
    (h : |x * 10 ^ prec - n| < 1 / 2 ∨ (|x * 10 ^ prec - n| = 1 / 2 ∧ n % 2 = 0)) :
    formatFixed prec x = formatNat (n / 10 ^ prec) ++
      (if prec = 0 then [] else '.' :: padZeros prec (formatNat (n % 10 ^ prec))) := by
  unfold formatFixed
  have hr : roundHalfEven (|x| * 10 ^ prec) = (n : ℤ) := by
    apply roundHalfEven_eq_of
    rw [abs_of_nonneg hx]
    rcases h with h | h
    · exact Or.inl (by simpa using h)
    · exact Or.inr ⟨by simpa using h.1, by omega⟩
  simp only [hr, Int.toNat_ofNat]
  rw [if_neg (not_lt.mpr hx)]

theorem Int_log_two_eq {x : ℚ} {e : ℤ} (hx : 0 < x) (h1 : (2 : ℚ) ^ e ≤ x)
    (h2 : x < (2 : ℚ) ^ (e + 1)) : Int.log 2 x = e := by
  apply le_antisymm
  · have : Int.log 2 x < e + 1 := by
      rw [← Int.lt_zpow_iff_log_lt (by norm_num) hx]
      exact_mod_cast h2
    omega
  · rw [← Int.zpow_le_iff_le_log (by norm_num) hx]
    exact_mod_cast h1

theorem roundF64_big_total :
    roundF64 ((225179981368524799 : ℤ) : ℚ) = 225179981368524800 := by
  have hne : ((225179981368524799 : ℤ) : ℚ) ≠ 0 := by norm_num
  have hlog : Int.log 2 |((225179981368524799 : ℤ) : ℚ)| = 57 := by
    apply Int_log_two_eq
    · norm_num
    · norm_num
    · norm_num
  rw [roundF64_of_ne_zero hne, hlog]
  have hm : max (57 : ℤ) (-1022) - 52 = 5 := by norm_num
  rw [hm]
  have hr : roundHalfEven (((225179981368524799 : ℤ) : ℚ) / 2 ^ (5 : ℤ))
      = 7036874417766400 := by
    apply roundHalfEven_eq_of
    left
    norm_num [abs_lt]
  rw [hr]
  norm_num

theorem getMemoryInfo_big :
    getMemoryInfo ((bareHost "linux".toList).withFile "/proc/meminfo".toList
      "MemTotal: 225179981368524799 kB\nMemAvailable: 224054081461682175 kB\n".toList)
      = "1073741824.0G / 214748364800.0G (0%)".toList := by
  have hloop : getMemoryInfo.loop
      (Split "MemTotal: 225179981368524799 kB\nMemAvailable: 224054081461682175 kB\n".toList '\n')
      (0, 0) = ((225179981368524799 : ℤ), (224054081461682175 : ℤ)) := by decide
  have hw : wrap64 ((225179981368524799 : ℤ) - 224054081461682175) = 1125899906842624 := by
    decide
  unfold getMemoryInfo
  rw [if_pos (by decide)]
  have hr : ((bareHost "linux".toList).withFile "/proc/meminfo".toList
      "MemTotal: 225179981368524799 kB\nMemAvailable: 224054081461682175 kB\n".toList).readFile
      "/proc/meminfo".toList
      = some "MemTotal: 225179981368524799 kB\nMemAvailable: 224054081461682175 kB\n".toList := by
    decide
  rw [hr]
  simp only [hloop, hw]
  rw [if_pos (by decide)]
  have hused : f64Div (f64Div (f64OfInt (1125899906842624 : ℤ)) 1024) 1024 = 1073741824 := by
    rw [f64_scale_exact _ (by norm_num)]
    norm_num
  have htot : f64OfInt (225179981368524799 : ℤ) = 225179981368524800 := roundF64_big_total
  have htotGB : f64Div (f64Div (f64OfInt (225179981368524799 : ℤ)) 1024) 1024 = 214748364800 := by
    rw [htot]
    unfold f64Div
    have e1 : (225179981368524800 : ℚ) / 1024 = ((219902325555200 : ℤ) : ℚ) := by norm_num
    rw [e1, roundF64_intCast _ (by norm_num)]
    have e2 : ((219902325555200 : ℤ) : ℚ) / 1024 = ((214748364800 : ℤ) : ℚ) := by norm_num
    rw [e2, roundF64_intCast _ (by norm_num)]
    norm_num
  have hpct : f64Div (f64Mul (f64OfInt (1125899906842624 : ℤ)) 100)
      (f64OfInt (225179981368524799 : ℤ)) = 1 / 2 := by
    rw [htot]
    unfold f64Div f64Mul f64OfInt
    rw [roundF64_intCast _ (by norm_num)]
    have e1 : ((1125899906842624 : ℤ) : ℚ) * 100 = ((100 : ℤ) : ℚ) * 2 ^ (50 : ℤ) := by norm_num
    rw [e1, roundF64_dyadic 100 50 (by norm_num) (by norm_num)]
    have e2 : ((100 : ℤ) : ℚ) * 2 ^ (50 : ℤ) / 225179981368524800
        = ((1 : ℤ) : ℚ) * 2 ^ (-1 : ℤ) := by norm_num
    rw [e2, roundF64_dyadic 1 (-1) (by norm_num) (by norm_num)]
    norm_num
  rw [hused, htotGB, hpct,
    formatFixed_eval 1 1073741824 10737418240 (by norm_num) (Or.inl (by norm_num)),
    formatFixed_eval 1 214748364800 2147483648000 (by norm_num) (Or.inl (by norm_num)),
    formatFixed_eval 0 (1 / 2) 0 (by norm_num) (Or.inr ⟨by norm_num, by norm_num⟩)]
  decide

theorem memoryText_big :
    Spec.memoryText 225179981368524799 224054081461682175
      = "1073741824.0G / 214748364800.0G (1%)".toList := by
  unfold Spec.memoryText
  rw [formatFixed_eval 1 _ 10737418240 (by norm_num) (Or.inl (by norm_num [abs_lt])),
    formatFixed_eval 1 _ 2147483648000 (by norm_num) (Or.inl (by norm_num [abs_lt])),
    formatFixed_eval 0 _ 1 (by norm_num) (Or.inl (by norm_num [abs_lt]))]
  decide

theorem memoryText_small : Spec.memoryText 1024 512 = "0.0G / 0.0G (50%)".toList := by
  unfold Spec.memoryText
  rw [formatFixed_eval 1 _ 0 (by norm_num) (Or.inl (by norm_num [abs_lt])),
    formatFixed_eval 1 _ 0 (by norm_num) (Or.inl (by norm_num [abs_lt])),
    formatFixed_eval 0 _ 50 (by norm_num) (Or.inl (by norm_num [abs_lt]))]
  decide

/-- C2, the claim fails.  First, the last line that starts with `MemTotal:`
decides: a content with the lines `MemTotal: 1024 kB` and
`MemAvailable: 512 kB` but also a later `MemTotal: 0 kB` gives `Unknown`, not
`0.0G / 0.0G (50%)`.  Second, the percentage is computed in `float64`: for
`t = 225179981368524799` and `a = 224054081461682175` the total is rounded to a
float, the quotient becomes exactly one half and is printed as `0%`, where the
exact value, a little above one half, is rendered as `1%`. -/
theorem getMemoryInfo_claim_fails :
    (Spec.meminfoLine "MemTotal".toList 1 1024
        ∈ Split "MemTotal: 1024 kB\nMemTotal: 0 kB\nMemAvailable: 512 kB\n".toList '\n'
      ∧ Spec.meminfoLine "MemAvailable".toList 1 512
        ∈ Split "MemTotal: 1024 kB\nMemTotal: 0 kB\nMemAvailable: 512 kB\n".toList '\n'
      ∧ getMemoryInfo ((bareHost "linux".toList).withFile "/proc/meminfo".toList
          "MemTotal: 1024 kB\nMemTotal: 0 kB\nMemAvailable: 512 kB\n".toList)
          = "Unknown".toList
      ∧ Spec.memoryText 1024 512 = "0.0G / 0.0G (50%)".toList)
    ∧ (Split "MemTotal: 225179981368524799 kB\nMemAvailable: 224054081461682175 kB\n".toList '\n'
          = [Spec.meminfoLine "MemTotal".toList 1 225179981368524799,
              Spec.meminfoLine "MemAvailable".toList 1 224054081461682175, []]
      ∧ getMemoryInfo ((bareHost "linux".toList).withFile "/proc/meminfo".toList
          "MemTotal: 225179981368524799 kB\nMemAvailable: 224054081461682175 kB\n".toList)
          = "1073741824.0G / 214748364800.0G (0%)".toList
      ∧ Spec.memoryText 225179981368524799 224054081461682175
          = "1073741824.0G / 214748364800.0G (1%)".toList) :=
  ⟨⟨by decide, by decide, by decide, memoryText_small⟩,
    ⟨by decide, getMemoryInfo_big, memoryText_big⟩⟩

end Sysinfo
